import Mathlib

/-!
Verification development for the flashyD deck-generation core.

The two verified subsystems are shallow embeddings of

* `src/lib/ai.ts` — `parseJSON`, the recovery parser that turns raw model
  completion text into flashcard records (fence stripping, direct JSON
  parse, truncation recovery, regex-based object extraction), and
* `src/lib/anki.ts` — `generateAnkiPackage` / `downloadDeck`, the package
  builder that produces the relational snapshot (col/notes/cards/revlog/
  graves), identifiers, checksums, and the two-entry archive.

Modelling conventions:
* JS strings are modelled as `List Char` / `String`; `JSON.parse` is
  modelled by a recursive-descent parser over the full JSON grammar with
  numbers kept as their lexemes (no floating-point semantics is needed by
  any claim).  JS objects are modelled as ordered key/value lists.
  `\u` escapes denoting surrogate code units are outside the model.
* `Math.random()` draws are passed in as rational parameters in [0,1);
  `Date.now()` is passed in as an integer parameter; per-note guids are
  passed in as a function from the note index.
* The backtick character is written `'\x60'`, `{` / `}` are written
  `'\x7b'` / `'\x7d'`.
-/

/-- JSON values as produced by `JSON.parse`.  Numbers are kept as their
source lexemes; object members are kept in document order. -/
inductive Json where
  | null : Json
  | bool (b : Bool) : Json
  | num (lex : String) : Json
  | str (s : String) : Json
  | arr (elems : List Json) : Json
  | obj (members : List (String × Json)) : Json

/-! ### Fence stripping: `text.replace(/```json\n?/g, "").replace(/```\n?/g, "").trim()` -/

/-- Global replacement of the regex `/```json\n?/` by the empty string:
leftmost, non-overlapping, with the optional `\n` taken greedily. -/
def r1 : List Char → List Char
  | '\x60' :: '\x60' :: '\x60' :: 'j' :: 's' :: 'o' :: 'n' :: '\n' :: rest => r1 rest
  | '\x60' :: '\x60' :: '\x60' :: 'j' :: 's' :: 'o' :: 'n' :: rest => r1 rest
  | c :: rest => c :: r1 rest
  | [] => []

/-- Global replacement of the regex `/```\n?/` by the empty string. -/
def r2 : List Char → List Char
  | '\x60' :: '\x60' :: '\x60' :: '\n' :: rest => r2 rest
  | '\x60' :: '\x60' :: '\x60' :: rest => r2 rest
  | c :: rest => c :: r2 rest
  | [] => []

/-- The whitespace class trimmed by JS `String.prototype.trim`. -/
def trimWs (c : Char) : Bool :=
  c = ' ' || c = '\t' || c = '\n' || c = '\r' || c = '\x0b' || c = '\x0c' ||
  c = '\xa0' || c = '\ufeff'

def trimL (s : List Char) : List Char := s.dropWhile trimWs

/-- JS `String.prototype.trim`: drop leading and trailing whitespace. -/
def jsTrim (s : List Char) : List Char := (trimL ((trimL s).reverse)).reverse

/-- The `cleanText` computed at the top of `parseJSON`. -/
def cleanText (s : List Char) : List Char := jsTrim (r2 (r1 s))

/-! ### `JSON.parse` -/

/-- JSON insignificant whitespace. -/
def jsonWs (c : Char) : Bool := c = ' ' || c = '\t' || c = '\n' || c = '\r'

def skipWs (s : List Char) : List Char := s.dropWhile jsonWs

def hexVal (c : Char) : Option Nat :=
  if '0' ≤ c ∧ c ≤ '9' then some (c.toNat - 48)
  else if 'a' ≤ c ∧ c ≤ 'f' then some (c.toNat - 87)
  else if 'A' ≤ c ∧ c ≤ 'F' then some (c.toNat - 55)
  else none

def consStr (c : Char) : Option (List Char × List Char) → Option (List Char × List Char)
  | some (cs, r) => some (c :: cs, r)
  | none => none

/-- Decode a single-character escape (everything except `\\u`). -/
def escDecode (e : Char) : Option Char :=
  if e = '"' then some '"'
  else if e = '\\' then some '\\'
  else if e = '/' then some '/'
  else if e = 'b' then some '\x08'
  else if e = 'f' then some '\x0c'
  else if e = 'n' then some '\n'
  else if e = 'r' then some '\r'
  else if e = 't' then some '\t'
  else none

/-- Decode one escape sequence (the input starts right after the
backslash), returning the decoded character and the remaining input. -/
def parseEsc : List Char → Option (Char × List Char)
  | 'u' :: h1 :: h2 :: h3 :: h4 :: r2 =>
    match hexVal h1, hexVal h2, hexVal h3, hexVal h4 with
    | some a, some b, some c, some d =>
      let n := ((a * 16 + b) * 16 + c) * 16 + d
      if n < 0xd800 ∨ 0xdfff < n then some (Char.ofNat n, r2) else none
    | _, _, _, _ => none
  | e :: r2 =>
    match escDecode e with
    | some d => some (d, r2)
    | none => none
  | [] => none

/-- Parse the body of a JSON string literal (after the opening quote),
returning the decoded characters and the input after the closing quote.
Fuel-indexed: every step consumes at least one input character, so the
fuel `input length + 1` supplied by the callers never runs out and the
zero-fuel branch is unreachable. -/
def parseStrBody : Nat → List Char → Option (List Char × List Char)
  | 0, _ => none
  | _ + 1, [] => none
  | fuel + 1, c :: r =>
    if c = '"' then some ([], r)
    else if c = '\\' then
      match parseEsc r with
      | some (d, r2) => consStr d (parseStrBody fuel r2)
      | none => none
    else if c.toNat < 0x20 then none
    else consStr c (parseStrBody fuel r)

def isDigit (c : Char) : Bool := '0' ≤ c && c ≤ '9'

def takeDigits (s : List Char) : List Char × List Char :=
  (s.takeWhile isDigit, s.dropWhile isDigit)

/-- JSON integer part: `0` or a nonzero digit followed by digits. -/
def parseIntLex : List Char → Option (List Char × List Char)
  | '0' :: r => some (['0'], r)
  | c :: r =>
    if isDigit c then
      let p := takeDigits r
      some (c :: p.1, p.2)
    else none
  | [] => none

/-- JSON fraction part: empty, or `.` followed by at least one digit. -/
def parseFracLex : List Char → Option (List Char × List Char)
  | '.' :: r =>
    let p := takeDigits r
    if p.1.isEmpty then none else some ('.' :: p.1, p.2)
  | s => some ([], s)

/-- JSON exponent part: empty, or `e`/`E`, optional sign, digits. -/
def parseExpLex : List Char → Option (List Char × List Char)
  | c :: r =>
    if c = 'e' ∨ c = 'E' then
      match r with
      | s :: r2 =>
        if s = '+' ∨ s = '-' then
          let p := takeDigits r2
          if p.1.isEmpty then none else some (c :: s :: p.1, p.2)
        else
          let p := takeDigits r
          if p.1.isEmpty then none else some (c :: p.1, p.2)
      | [] => none
    else some ([], c :: r)
  | [] => some ([], [])

def parseNumCore (s : List Char) : Option (List Char × List Char) :=
  match parseIntLex s with
  | some (i, r) =>
    match parseFracLex r with
    | some (f, r2) =>
      match parseExpLex r2 with
      | some (e, r3) => some (i ++ f ++ e, r3)
      | none => none
    | none => none
  | none => none

def parseNum (s : List Char) : Option (List Char × List Char) :=
  match s with
  | '-' :: r =>
    match parseNumCore r with
    | some (l, r2) => some ('-' :: l, r2)
    | none => none
  | _ => parseNumCore s

mutual

/-- Recursive-descent JSON value parser (fuel-indexed; the top level
supplies fuel one larger than the input length, which always suffices). -/
def parseVal : Nat → List Char → Option (Json × List Char)
  | 0, _ => none
  | fuel + 1, s =>
    match skipWs s with
    | '\x7b' :: r =>
      match skipWs r with
      | '\x7d' :: r2 => some (.obj [], r2)
      | _ =>
        match parseMembers fuel r with
        | some (ms, r2) => some (.obj ms, r2)
        | none => none
    | '[' :: r =>
      match skipWs r with
      | ']' :: r2 => some (.arr [], r2)
      | _ =>
        match parseElems fuel r with
        | some (vs, r2) => some (.arr vs, r2)
        | none => none
    | '"' :: r =>
      match parseStrBody (r.length + 1) r with
      | some (cs, r2) => some (.str (String.mk cs), r2)
      | none => none
    | 'n' :: 'u' :: 'l' :: 'l' :: r => some (.null, r)
    | 't' :: 'r' :: 'u' :: 'e' :: r => some (.bool true, r)
    | 'f' :: 'a' :: 'l' :: 's' :: 'e' :: r => some (.bool false, r)
    | r =>
      match parseNum r with
      | some (ds, r2) => some (.num (String.mk ds), r2)
      | none => none

/-- Nonempty comma-separated element list of a JSON array, up to and
including the closing `]`. -/
def parseElems : Nat → List Char → Option (List Json × List Char)
  | 0, _ => none
  | fuel + 1, s =>
    match parseVal fuel s with
    | some (v, r) =>
      match skipWs r with
      | ',' :: r2 =>
        match parseElems fuel r2 with
        | some (vs, r3) => some (v :: vs, r3)
        | none => none
      | ']' :: r2 => some ([v], r2)
      | _ => none
    | none => none

/-- Nonempty member list of a JSON object, up to and including the
closing brace. -/
def parseMembers : Nat → List Char → Option (List (String × Json) × List Char)
  | 0, _ => none
  | fuel + 1, s =>
    match skipWs s with
    | '"' :: r =>
      match parseStrBody (r.length + 1) r with
      | some (k, r2) =>
        match skipWs r2 with
        | ':' :: r3 =>
          match parseVal fuel r3 with
          | some (v, r4) =>
            match skipWs r4 with
            | ',' :: r5 =>
              match parseMembers fuel r5 with
              | some (ms, r6) => some ((String.mk k, v) :: ms, r6)
              | none => none
            | '\x7d' :: r5 => some ([(String.mk k, v)], r5)
            | _ => none
          | none => none
        | _ => none
      | none => none
    | _ => none

end

/-- `JSON.parse` on a character list: parse one value and require only
whitespace to remain. -/
def jsonParse (s : List Char) : Option Json :=
  match parseVal (s.length + 1) s with
  | some (v, r) => if (skipWs r).isEmpty then some v else none
  | none => none

/-! ### The regex fallback
`/\{[^{}]*"front"\s*:\s*"[^"]*"[^{}]*"back"\s*:\s*"[^"]*"[^{}]*\}/g` -/

/-- One item of a (backtracking) regex: a literal or a greedy star over a
character class. -/
inductive RItem where
  | lit (cs : List Char)
  | star (p : Char → Bool)

def dropLit : List Char → List Char → Option (List Char)
  | [], s => some s
  | c :: cs, d :: ds => if c = d then dropLit cs ds else none
  | _ :: _, [] => none

/-- The split candidates a greedy star tries for a maximal run of `n`
matching characters, longest first: `[s.drop n, s.drop (n-1), …, s]`. -/
def starSplits : Nat → List Char → List (List Char)
  | 0, s => [s]
  | n + 1, s => s.drop (n + 1) :: starSplits n s

/-- Try to match the item sequence at the head of the input, returning
the remainder after the match.  Greedy stars try the longest candidate
first and backtrack, as in JS regex matching. -/
def tryMatch : List RItem → List Char → Option (List Char)
  | [], s => some s
  | .lit cs :: rest, s =>
    match dropLit cs s with
    | some s2 => tryMatch rest s2
    | none => none
  | .star p :: rest, s =>
    (starSplits (s.takeWhile p).length s).findSome? fun s2 => tryMatch rest s2

/-- `[^{}]` -/
def notBrace (c : Char) : Bool := !(c = '\x7b') && !(c = '\x7d')

/-- `[^"]` -/
def notQuote (c : Char) : Bool := !(c = '"')

/-- JS `\s`. -/
def jsWs (c : Char) : Bool :=
  c = ' ' || c = '\t' || c = '\n' || c = '\r' || c = '\x0b' || c = '\x0c' ||
  c = '\xa0' || c = '\ufeff'

/-- The object-shaped pattern used by the last-resort extraction. -/
def objectPattern : List RItem :=
  [.lit ['\x7b'], .star notBrace,
   .lit ['"', 'f', 'r', 'o', 'n', 't', '"'], .star jsWs, .lit [':'], .star jsWs,
   .lit ['"'], .star notQuote, .lit ['"'], .star notBrace,
   .lit ['"', 'b', 'a', 'c', 'k', '"'], .star jsWs, .lit [':'], .star jsWs,
   .lit ['"'], .star notQuote, .lit ['"'], .star notBrace,
   .lit ['\x7d']]

/-- Fuel-indexed global scan.  Every step either consumes a (nonempty)
match or advances one position, so fuel `s.length + 1` (supplied by
`regexMatches`) never runs out before the input is exhausted; the
zero-fuel branch is unreachable. -/
def regexMatchesF : Nat → List Char → List (List Char)
  | 0, _ => []
  | fuel + 1, s =>
    match tryMatch objectPattern s with
    | some rem => s.take (s.length - rem.length) :: regexMatchesF fuel rem
    | none =>
      match s with
      | [] => []
      | _ :: tail => regexMatchesF fuel tail

/-- All matches of the global regex scan, left to right, non-overlapping:
JS `cleanText.match(objectPattern)` with the `g` flag. -/
def regexMatches (s : List Char) : List (List Char) :=
  regexMatchesF (s.length + 1) s

/-! ### `parseJSON` from `src/lib/ai.ts` -/

def errNoJson : String := "Failed to parse AI response as JSON"

def errNoCards : String := "Failed to parse AI response as JSON — no complete cards found"

/-- Last-resort regex extraction, run on the text sliced from the first
`[`: parse each pattern match independently, keep the successes, fail
with the unparseable-output error when none survive. -/
def regexFallback (c2 : List Char) : Except String Json :=
  if ((regexMatches c2).filterMap jsonParse).isEmpty then .error errNoJson
  else .ok (.arr ((regexMatches c2).filterMap jsonParse))

/-- `cleanText = cleanText.slice(arrStart)`: the text from the first
`[` onward. -/
def sliceFromBracket (clean : List Char) : List Char :=
  clean.dropWhile (fun c => c ≠ '[')

/-- `cleanText.slice(0, lastBrace + 1)`: the text up to and including
the last `}`. -/
def truncKept (c2 : List Char) : List Char :=
  (c2.reverse.dropWhile (fun c => c ≠ '\x7d')).reverse

/-- Truncation recovery: slice from the first `[`, cut after the last
`}`, close the array and re-parse; on failure fall back to the regex
extraction.  A recovered top-level `null` also falls through, because the
source logs `parsed.length` inside the `try`, which throws on `null`. -/
def recoverTrunc (clean : List Char) : Except String Json :=
  if '[' ∈ clean then
    if '\x7d' ∈ sliceFromBracket clean then
      match jsonParse (truncKept (sliceFromBracket clean) ++ [']']) with
      | some .null => regexFallback (sliceFromBracket clean)
      | some v => .ok v
      | none => regexFallback (sliceFromBracket clean)
    else .error errNoCards
  else .error errNoJson

/-- The body of `parseJSON` after fence stripping.  A direct parse that
yields `null` falls into recovery (the source logs `parsed.length` inside
the `try`, which throws on `null`). -/
def parseClean (clean : List Char) : Except String Json :=
  match jsonParse clean with
  | some .null => recoverTrunc clean
  | some v => .ok v
  | none => recoverTrunc clean

/-- `parseJSON` from `src/lib/ai.ts`. -/
def parseJSON (text : String) : Except String Json :=
  parseClean (cleanText text.data)

/-! ### Flashcards (`src/lib/ai.ts` interface) -/

/-- The `Flashcard` interface: `front`/`back` required, `type`/`tags`
optional (the `type` enum is kept as raw text; the builder never reads
it). -/
structure Flashcard where
  front : String
  back : String
  type : Option String := none
  tags : Option (List String) := none

/-! ### `src/lib/anki.ts` -/

/-- JS `| 0`: wrap an integer to the signed 32-bit range. -/
def toInt32 (n : Int) : Int := (n + 2 ^ 31) % 2 ^ 32 - 2 ^ 31

/-- One step of the checksum loop:
`csum = ((csum << 5) - csum + front.charCodeAt(i)) | 0`.
`<<` itself operates on 32-bit operands, hence the inner wrap. -/
def csumStep (csum : Int) (code : Nat) : Int :=
  toInt32 (toInt32 (csum * 2 ^ 5) - csum + code)

/-- `charCodeAt` enumerates UTF-16 code units. -/
def utf16Codes (s : String) : List Nat :=
  s.data.flatMap fun c =>
    if c.toNat < 0x10000 then [c.toNat]
    else [0xd800 + (c.toNat - 0x10000) / 0x400, 0xdc00 + (c.toNat - 0x10000) % 0x400]

/-- The note checksum computed by `generateAnkiPackage`: fold the loop
over the front text's code units, then `Math.abs`. -/
def ankiChecksum (front : String) : Int :=
  (((utf16Codes front).foldl csumStep 0).natAbs : Int)

/-- Modelled from the spec: the checksum recurrence
`csum = (csum << 5) - csum + code` "evaluated with 32-bit wraparound
semantics", final absolute magnitude taken.  Used to check the source
checksum against the spec's description (claim C6). -/
def specChecksumStep (csum : Int) (code : Nat) : Int :=
  toInt32 (csum * 2 ^ 5 - csum + code)

/-- Modelled from the spec: see `specChecksumStep`. -/
def specChecksum (front : String) : Int :=
  (((utf16Codes front).foldl specChecksumStep 0).natAbs : Int)

/-- `Math.floor(Math.random() * 1e13) + 1`, the deck/model identifier
generator, with the `Math.random()` draw `r ∈ [0, 1)` as a parameter. -/
def genAnkiId (r : ℚ) : Int := ⌊r * 10 ^ 13⌋ + 1

/-- JS `s || ''` for strings: the empty string is falsy. -/
def jsOrEmpty (s : String) : String := if s = "" then "" else s

/-- The field separator `'\x1f'`. -/
def SEP : String := "\x1f"

/-- A row of the `notes` relation. -/
structure NoteRow where
  id : Int
  guid : String
  mid : Int
  mod : Int
  usn : Int
  tags : String
  flds : String
  sfld : String
  csum : Int
  flags : Int
  data : String

/-- A row of the `cards` relation (`type` is the scheduling state
column of the Anki schema). -/
structure CardRow where
  id : Int
  nid : Int
  did : Int
  ord : Int
  mod : Int
  usn : Int
  type : Int
  queue : Int
  due : Int
  ivl : Int
  factor : Int
  reps : Int
  lapses : Int
  left : Int
  odue : Int
  odid : Int
  flags : Int
  data : String

/-- A row of the (always empty) `revlog` relation. -/
structure RevlogRow where
  id : Int
  cid : Int
  usn : Int
  ease : Int
  ivl : Int
  lastIvl : Int
  factor : Int
  time : Int
  type : Int

/-- A row of the (always empty) `graves` relation. -/
structure GraveRow where
  usn : Int
  oid : Int
  type : Int

/-- One template of the fixed "Basic" note type. -/
structure TemplateDef where
  name : String
  qfmt : String
  afmt : String
  ord : Int
  bafmt : String
  bqfmt : String

/-- One field of the fixed "Basic" note type. -/
structure FieldDef where
  name : String
  ord : Int
  sticky : Bool
  rtl : Bool
  font : String
  size : Int

/-- The fixed "Basic" note-type definition. -/
structure ModelDef where
  id : Int
  name : String
  type : Int
  mod : Int
  usn : Int
  sortf : Int
  did : Int
  tmpls : List TemplateDef
  flds : List FieldDef
  css : String
  latexPre : String
  latexPost : String

/-- A deck definition inside the `decks` configuration blob. -/
structure DeckDef where
  id : Int
  name : String
  mod : Int
  usn : Int
  collapsed : Bool
  desc : String
  dyn : Int
  conf : Int
  extendNew : Int
  extendRev : Int

/-- The `conf` configuration blob of the collection row. -/
structure ConfBlob where
  activeDecks : List Int
  curDeck : Int
  newSpread : Int
  collapseTime : Int
  timeLim : Int
  estTimes : Bool
  dueCounts : Bool
  curModel : Int
  nextPos : Int
  sortType : String
  sortBackwards : Bool
  addToCur : Bool

/-- The singleton `col` row; the JSON configuration blobs are kept
structured. -/
structure ColRow where
  id : Int
  crt : Int
  mod : Int
  scm : Int
  ver : Int
  dty : Int
  usn : Int
  ls : Int
  conf : ConfBlob
  models : List (Int × ModelDef)
  decks : List (Int × DeckDef)
  tags : String

/-- The relational snapshot `collection.anki2`: the five relations
created by `generateAnkiPackage`. -/
structure Collection where
  col : List ColRow
  notes : List NoteRow
  cards : List CardRow
  revlog : List RevlogRow
  graves : List GraveRow

/-- The fixed "Basic" model definition built by `generateAnkiPackage`. -/
def basicModel (modelId deckId now : Int) : ModelDef :=
  { id := modelId, name := "Basic", type := 0, mod := now.fdiv 1000, usn := -1,
    sortf := 0, did := deckId,
    tmpls := [{ name := "Card 1", qfmt := "\x7b\x7bFront\x7d\x7d",
                afmt := "\x7b\x7bFrontSide\x7d\x7d<hr id=answer>\x7b\x7bBack\x7d\x7d",
                ord := 0, bafmt := "", bqfmt := "" }],
    flds := [{ name := "Front", ord := 0, sticky := false, rtl := false, font := "Arial", size := 20 },
             { name := "Back", ord := 1, sticky := false, rtl := false, font := "Arial", size := 20 }],
    css := ".card \x7b font-family: arial; font-size: 20px; text-align: center; color: black; background-color: white; \x7d",
    latexPre := "", latexPost := "" }

/-- The reserved default deck (id 1). -/
def defaultDeck : DeckDef :=
  { id := 1, name := "Default", mod := 0, usn := 0, collapsed := false,
    desc := "", dyn := 0, conf := 1, extendNew := 10, extendRev := 50 }

/-- The newly generated deck definition. -/
def newDeck (deckId : Int) (deckName : String) (now : Int) : DeckDef :=
  { id := deckId, name := deckName, mod := now.fdiv 1000, usn := -1,
    collapsed := false, desc := "", dyn := 0, conf := 1,
    extendNew := 10, extendRev := 50 }

/-- The note row inserted for the card at position `idx`. -/
def mkNoteRow (now modelId : Int) (guid : String) (idx : Nat) (card : Flashcard) : NoteRow :=
  { id := now + idx,
    guid := guid,
    mid := modelId,
    mod := now.fdiv 1000,
    usn := -1,
    tags := match card.tags with | some ts => String.intercalate " " ts | none => "",
    flds := jsOrEmpty card.front ++ SEP ++ jsOrEmpty card.back,
    sfld := jsOrEmpty card.front,
    csum := ankiChecksum (jsOrEmpty card.front),
    flags := 0,
    data := "" }

/-- The card row inserted for the card at position `idx` of `total`. -/
def mkCardRow (now deckId : Int) (total idx : Nat) : CardRow :=
  { id := now + idx + total,
    nid := now + idx,
    did := deckId,
    ord := 0,
    mod := now.fdiv 1000,
    usn := -1,
    type := 0,
    queue := 0,
    due := idx + 1,
    ivl := 0,
    factor := 0,
    reps := 0,
    lapses := 0,
    left := 0,
    odue := 0,
    odid := 0,
    flags := 0,
    data := "" }

/-- The relational snapshot built by `generateAnkiPackage` before export:
`now` is the `Date.now()` reading, `deckId`/`modelId` the generated
identifiers, `guid idx` the random guid drawn for note `idx`. -/
def buildCollection (cards : List Flashcard) (deckName : String)
    (now deckId modelId : Int) (guid : Nat → String) : Collection :=
  { col := [{ id := 1, crt := now.fdiv 1000, mod := now.fdiv 1000,
              scm := now.fdiv 1000, ver := 11, dty := 0, usn := 0, ls := 0,
              conf := { activeDecks := [1], curDeck := 1, newSpread := 0,
                        collapseTime := 1200, timeLim := 0, estTimes := true,
                        dueCounts := true, curModel := modelId,
                        nextPos := cards.length + 1, sortType := "noteFld",
                        sortBackwards := false, addToCur := true },
              models := [(modelId, basicModel modelId deckId now)],
              decks := [(1, defaultDeck), (deckId, newDeck deckId deckName now)],
              tags := "\x7b\x7d" }],
    notes := cards.enum.map fun p => mkNoteRow now modelId (guid p.1) p.1 p.2,
    cards := cards.enum.map fun p => mkCardRow now deckId cards.length p.1,
    revlog := [],
    graves := [] }

/-- The payload of one archive entry. -/
inductive ZipData where
  | db (c : Collection)
  | text (s : String)

/-- `generateAnkiPackage`: build the snapshot and wrap it, together with
the empty media manifest, into the archive.  The `Math.random()` draws
for the deck and model identifiers are the parameters `rDeck`/`rModel`. -/
def generateAnkiPackage (cards : List Flashcard) (deckName : String)
    (now : Int) (rDeck rModel : ℚ) (guid : Nat → String) : List (String × ZipData) :=
  [("collection.anki2",
    .db (buildCollection cards deckName now (genAnkiId rDeck) (genAnkiId rModel) guid)),
   ("media", .text "\x7b\x7d")]

/-- JS `String.prototype.endsWith` (kernel-computable model). -/
def jsEndsWith (s t : String) : Bool := t.data.isSuffixOf s.data

/-- The download file name chosen by `downloadDeck`:
`fileName.endsWith('.apkg') ? fileName : fileName + '.apkg'`. -/
def downloadName (fileName : String) : String :=
  if jsEndsWith fileName ".apkg" then fileName else fileName ++ ".apkg"

/-! ### Serialized flashcard arrays (claim C4)

The upstream serialization that claim C4 quantifies over: a
`JSON.stringify`-style rendering of an array of flashcard objects. -/

def hexDigit (n : Nat) : Char :=
  if n < 10 then Char.ofNat (48 + n) else Char.ofNat (87 + n)

/-- `JSON.stringify` escaping of one string character. -/
def escChar (c : Char) : List Char :=
  if c = '"' then ['\\', '"']
  else if c = '\\' then ['\\', '\\']
  else if c = '\x08' then ['\\', 'b']
  else if c = '\x0c' then ['\\', 'f']
  else if c = '\n' then ['\\', 'n']
  else if c = '\r' then ['\\', 'r']
  else if c = '\t' then ['\\', 't']
  else if c.toNat < 0x20 then ['\\', 'u', '0', '0', hexDigit (c.toNat / 16), hexDigit (c.toNat % 16)]
  else [c]

def escStr (s : List Char) : List Char := s.flatMap escChar

/-- A serialized JSON string literal. -/
def serStr (s : String) : List Char := '"' :: (escStr s.data ++ ['"'])

/-- Comma-joined serialized values (the body of an array literal). -/
def serElemsList : List (List Char) → List Char
  | [] => []
  | [e] => e
  | e :: rest => e ++ ',' :: serElemsList rest

/-- Comma-joined serialized `"key":value` pairs (the body of an object
literal). -/
def serMembersList : List (String × List Char) → List Char
  | [] => []
  | [(k, v)] => serStr k ++ ':' :: v
  | (k, v) :: rest => serStr k ++ ':' :: v ++ ',' :: serMembersList rest

/-- A serialized JSON string array. -/
def serTags (ts : List String) : List Char :=
  match ts with
  | [] => ['[', ']']
  | _ => '[' :: (serElemsList (ts.map serStr) ++ [']'])

/-- The serialized members of one flashcard object, with the JSON value
each serialized member body decodes to (keys in interface order). -/
def cardTriples (c : Flashcard) : List (String × List Char × Json) :=
  [("front", serStr c.front, .str c.front), ("back", serStr c.back, .str c.back)] ++
  (match c.type with | some ty => [("type", serStr ty, .str ty)] | none => []) ++
  (match c.tags with
   | some ts => [("tags", serTags ts, .arr (ts.map Json.str))]
   | none => [])

/-- One serialized flashcard object. -/
def serCard (c : Flashcard) : List Char :=
  '\x7b' :: (serMembersList ((cardTriples c).map fun m => (m.1, m.2.1)) ++ ['\x7d'])

/-- The serialized array of `cards`, cut off immediately after the
`k`-th object's closing brace: the leading `[`, the first `k` objects,
no trailing `]`. -/
def cutText (cards : List Flashcard) (k : Nat) : List Char :=
  '[' :: serElemsList ((cards.take k).map serCard)

/-- The JSON value `JSON.parse` decodes a serialized flashcard to. -/
def cardToJson (c : Flashcard) : Json :=
  .obj ((cardTriples c).map fun m => (m.1, m.2.2))

/-- Whether the text contains a triple-backtick run (which the fence
stripping of `parseJSON` would corrupt). -/
def hasTriple : List Char → Bool
  | '\x60' :: '\x60' :: '\x60' :: _ => true
  | _ :: rest => hasTriple rest
  | [] => false

/-- Fuel sufficient for `parseVal` on one serialized card. -/
def fuelCard (c : Flashcard) : Nat :=
  12 + (match c.tags with | some ts => ts.length | none => 0)

/-- Fuel sufficient for `parseElems` on a serialized card-array body. -/
def fuelCards : List Flashcard → Nat
  | [] => 1
  | c :: rest => 1 + fuelCard c + fuelCards rest

/-- A flashcard whose front text itself contains the reserved separator
code point 0x1F. -/
def sepFrontCard : Flashcard := { front := "a\x1fb", back := "c" }

/-- The per-card fuel needed by the member values. -/
def fuelVals (c : Flashcard) : Nat :=
  (match c.tags with | some ts => ts.length | none => 0) + 2

/-- A flashcard whose front text contains a triple backtick: the fence
stripping corrupts it even inside a well-formed serialized array. -/
def tickCard : Flashcard := { front := "a\x60\x60\x60b", back := "x" }

def plainCard : Flashcard := { front := "c", back := "d" }

/-! ### Helper lemmas about the builder -/

theorem jsOrEmpty_eq (s : String) : jsOrEmpty s = s := by
  unfold jsOrEmpty
  split <;> simp_all

theorem notes_map (cards : List Flashcard) (deckName : String)
    (now deckId modelId : Int) (guid : Nat → String) (f : NoteRow → α) :
    (buildCollection cards deckName now deckId modelId guid).notes.map f =
      cards.enum.map fun p => f (mkNoteRow now modelId (guid p.1) p.1 p.2) := by
  simp [buildCollection]

theorem enum_map_snd_comp (l : List α) (g : α → β) :
    (l.enum.map fun p => g p.2) = l.map g := by
  have h1 : (l.enum.map fun p => g p.2) = (l.enum.map Prod.snd).map g := by
    rw [List.map_map]
    rfl
  rw [h1, List.enum_map_snd]

theorem enum_map_fst_comp (l : List α) (g : Nat → β) :
    (l.enum.map fun p => g p.1) = (List.range l.length).map g := by
  have h1 : (l.enum.map fun p => g p.1) = (l.enum.map Prod.fst).map g := by
    rw [List.map_map]
    rfl
  rw [h1, List.enum_map_fst]

/-! ### Claim C2 -/

/-- Claim C2 (counterexample): when the `Math.random()` draw is `0`
(a value in the legal range `[0, 1)`), the generated deck/model
identifier equals the reserved default deck id 1, so the ids are not
"never equal to 1". -/
theorem c2_counterexample : genAnkiId 0 = 1 ∧ (0 : ℚ) ≤ 0 ∧ (0 : ℚ) < 1 := by
  refine ⟨?_, le_refl 0, by norm_num⟩
  unfold genAnkiId
  norm_num

/-- Claim C2 (amended): the generated deck/model identifiers always lie
in `[1, 10^13]`; they differ from the reserved default deck id 1
whenever the random draw is at least `10^-13`, and equal 1 exactly on
the draws below that bound. -/
theorem c2_theorem (r : ℚ) (h0 : 0 ≤ r) (h1 : r < 1) :
    1 ≤ genAnkiId r ∧ genAnkiId r ≤ 10 ^ 13 ∧
      ((1 : ℚ) / 10 ^ 13 ≤ r → genAnkiId r ≠ 1) := by
  unfold genAnkiId
  refine ⟨?_, ?_, ?_⟩
  · have : (0 : Int) ≤ ⌊r * 10 ^ 13⌋ := Int.floor_nonneg.mpr (by positivity)
    omega
  · have : ⌊r * 10 ^ 13⌋ < 10 ^ 13 := by
      apply Int.floor_lt.mpr
      push_cast
      nlinarith
    omega
  · intro hr
    have : (1 : Int) ≤ ⌊r * 10 ^ 13⌋ := by
      apply Int.le_floor.mpr
      push_cast
      rw [div_le_iff (by positivity)] at hr
      linarith
    omega

/-- Claim C2 (witness): the amended bounds at the concrete draw 1/2. -/
theorem c2_witness :
    1 ≤ genAnkiId (1 / 2) ∧ genAnkiId (1 / 2) ≤ 10 ^ 13 ∧ genAnkiId (1 / 2) ≠ 1 := by
  have h := c2_theorem (1 / 2) (by norm_num) (by norm_num)
  exact ⟨h.1, h.2.1, h.2.2 (by norm_num)⟩

/-! ### Claim C9 -/

/-- Claim C9: the archive produced by the packager has exactly the two
entries `collection.anki2` (the relational snapshot) and `media` (the
literal empty JSON object), in that order; the download name appends
`.apkg` exactly when the deck name does not already end with it, and is
otherwise the unchanged name. -/
theorem c9_theorem (cards : List Flashcard) (deckName : String) (now : Int)
    (rDeck rModel : ℚ) (guid : Nat → String) :
    generateAnkiPackage cards deckName now rDeck rModel guid =
      [("collection.anki2",
        .db (buildCollection cards deckName now (genAnkiId rDeck) (genAnkiId rModel) guid)),
       ("media", .text "\x7b\x7d")] ∧
    (generateAnkiPackage cards deckName now rDeck rModel guid).length = 2 ∧
    (∀ fileName : String,
      (jsEndsWith fileName ".apkg" = true → downloadName fileName = fileName) ∧
      (jsEndsWith fileName ".apkg" = false → downloadName fileName = fileName ++ ".apkg")) := by
  refine ⟨rfl, rfl, fun fileName => ⟨fun h => ?_, fun h => ?_⟩⟩
  · unfold downloadName
    rw [if_pos h]
  · unfold downloadName
    rw [if_neg (by rw [h]; exact Bool.false_ne_true)]

/-- Claim C9 (witness): the archive entry names for a concrete build,
and the two concrete download-name cases. -/
theorem c9_witness :
    (generateAnkiPackage [] "Test" 1700000000000 (1 / 2) (1 / 3) (fun _ => "aaaaaaaaaa")).length = 2 ∧
    downloadName "deck.apkg" = "deck.apkg" ∧
    downloadName "deck" = "deck" ++ ".apkg" := by
  have h := c9_theorem [] "Test" 1700000000000 (1 / 2) (1 / 3) (fun _ => "aaaaaaaaaa")
  exact ⟨h.2.1, (h.2.2 "deck.apkg").1 (by decide), (h.2.2 "deck").2 (by decide)⟩

/-! ### Claim C6 -/

theorem csumStep_eq_spec (c : Int) (k : Nat) : csumStep c k = specChecksumStep c k := by
  unfold csumStep specChecksumStep toInt32
  norm_num
  omega

theorem ankiChecksum_eq_spec (front : String) : ankiChecksum front = specChecksum front := by
  unfold ankiChecksum specChecksum
  rw [show csumStep = specChecksumStep from funext fun c => funext fun k => csumStep_eq_spec c k]

/-- Claim C6: every note row's checksum equals the spec's description —
the fold of `csum = (csum << 5) - csum + code` over the front text's
character codes under 32-bit wraparound, with the absolute magnitude of
the final value taken — and the checksum function is a pure function of
the front text (so two invocations on the same text agree). -/
theorem c6_theorem :
    (∀ (cards : List Flashcard) (deckName : String) (now deckId modelId : Int)
       (guid : Nat → String),
      (buildCollection cards deckName now deckId modelId guid).notes.map (fun r => r.csum) =
        cards.map fun c => specChecksum c.front) ∧
    (∀ front : String, ankiChecksum front = specChecksum front) := by
  constructor
  · intro cards deckName now deckId modelId guid
    rw [notes_map]
    rw [show (fun p : Nat × Flashcard => (mkNoteRow now modelId (guid p.1) p.1 p.2).csum)
        = fun p : Nat × Flashcard => specChecksum p.2.front from ?_]
    · exact enum_map_snd_comp cards fun c => specChecksum c.front
    · funext p
      simp [mkNoteRow, jsOrEmpty_eq, ankiChecksum_eq_spec]
  · exact ankiChecksum_eq_spec

/-- Claim C6 (witness): not needed as a hypothesis discharge (the claim
theorem has no hypotheses), kept as a concrete evaluation: the checksum
of "Q1" under both the source loop and the spec recurrence. -/
theorem c6_witness : ankiChecksum "Q1" = specChecksum "Q1" ∧ ankiChecksum "Q1" = 2560 := by
  exact ⟨(c6_theorem).2 "Q1", by decide⟩

/-! ### Claim C7 -/

/-- Claim C7 (counterexample): the separator-count invariant does not
hold "regardless of the content of the front and back texts" — a front
text containing 0x1F produces a note whose fields string contains two
occurrences of the separator. -/
theorem c7_counterexample :
    ¬ (∀ r ∈ (buildCollection [sepFrontCard] "D" 1700000000000 2 3
          (fun _ => "aaaaaaaaaa")).notes, r.flds.data.count '\x1f' = 1) := by
  intro h
  have := h (mkNoteRow 1700000000000 3 "aaaaaaaaaa" 0 sepFrontCard) (by
    simp [buildCollection, List.enum])
  revert this
  decide

/-- Claim C7 (amended): each note's fields string contains exactly one
more occurrence of the separator code point 0x1F than the front and back
texts together contain — in particular exactly one occurrence whenever
front and back contain none. -/
theorem c7_theorem (cards : List Flashcard) (deckName : String)
    (now deckId modelId : Int) (guid : Nat → String) :
    (buildCollection cards deckName now deckId modelId guid).notes.map
        (fun r => r.flds.data.count '\x1f') =
      cards.map fun c => 1 + c.front.data.count '\x1f' + c.back.data.count '\x1f' := by
  rw [notes_map]
  rw [show (fun p : Nat × Flashcard => (mkNoteRow now modelId (guid p.1) p.1 p.2).flds.data.count '\x1f')
      = fun p : Nat × Flashcard =>
          1 + p.2.front.data.count '\x1f' + p.2.back.data.count '\x1f' from ?_]
  · exact enum_map_snd_comp cards fun c => 1 + c.front.data.count '\x1f' + c.back.data.count '\x1f'
  · funext p
    simp [mkNoteRow, jsOrEmpty_eq, SEP, String.data_append, List.count_append]
    omega

/-! ### Claim C5 -/

theorem note_ids (cards : List Flashcard) (deckName : String)
    (now deckId modelId : Int) (guid : Nat → String) :
    (buildCollection cards deckName now deckId modelId guid).notes.map (fun r => r.id) =
      (List.range cards.length).map fun i : Nat => now + (i : Int) := by
  rw [notes_map]
  exact enum_map_fst_comp cards fun i : Nat => now + (i : Int)

theorem card_ids (cards : List Flashcard) (deckName : String)
    (now deckId modelId : Int) (guid : Nat → String) :
    (buildCollection cards deckName now deckId modelId guid).cards.map (fun r => r.id) =
      (List.range cards.length).map fun i : Nat => now + (i : Int) + cards.length := by
  have h : (buildCollection cards deckName now deckId modelId guid).cards.map (fun r => r.id) =
      cards.enum.map fun p => now + (p.1 : Int) + cards.length := by
    simp [buildCollection, mkCardRow]
  rw [h]
  exact enum_map_fst_comp cards fun i : Nat => now + (i : Int) + cards.length

/-- Claim C5: within one build of N flashcards the note-id set
`{now + i}` and the card-id set `{now + N + i}` are disjoint, and — the
time base `Date.now()` being greater than 1 — both are disjoint from the
reserved default deck id 1. -/
theorem c5_theorem (cards : List Flashcard) (deckName : String)
    (now deckId modelId : Int) (guid : Nat → String) :
    (∀ a ∈ (buildCollection cards deckName now deckId modelId guid).notes.map (fun r => r.id),
      a ∉ (buildCollection cards deckName now deckId modelId guid).cards.map (fun r => r.id)) ∧
    (1 < now →
      (1 : Int) ∉ (buildCollection cards deckName now deckId modelId guid).notes.map (fun r => r.id) ∧
      (1 : Int) ∉ (buildCollection cards deckName now deckId modelId guid).cards.map (fun r => r.id)) := by
  rw [note_ids, card_ids]
  constructor
  · intro a ha hb
    simp only [List.mem_map, List.mem_range] at ha hb
    obtain ⟨i, hi, rfl⟩ := ha
    obtain ⟨j, hj, hij⟩ := hb
    omega
  · intro hnow
    constructor
    · intro h
      simp only [List.mem_map, List.mem_range] at h
      obtain ⟨i, hi, h⟩ := h
      omega
    · intro h
      simp only [List.mem_map, List.mem_range] at h
      obtain ⟨i, hi, h⟩ := h
      omega

/-- Claim C5 (witness): a concrete 2-card build at a realistic
millisecond timestamp. -/
theorem c5_witness :
    (∀ a ∈ (buildCollection [{ front := "Q1", back := "A1" }, { front := "Q2", back := "A2" }]
        "Test" 1700000000000 2 3 (fun _ => "aaaaaaaaaa")).notes.map (fun r => r.id),
      a ∉ (buildCollection [{ front := "Q1", back := "A1" }, { front := "Q2", back := "A2" }]
        "Test" 1700000000000 2 3 (fun _ => "aaaaaaaaaa")).cards.map (fun r => r.id)) ∧
    (1 : Int) ∉ (buildCollection [{ front := "Q1", back := "A1" }, { front := "Q2", back := "A2" }]
        "Test" 1700000000000 2 3 (fun _ => "aaaaaaaaaa")).notes.map (fun r => r.id) := by
  have h := c5_theorem [{ front := "Q1", back := "A1" }, { front := "Q2", back := "A2" }]
    "Test" 1700000000000 2 3 (fun _ => "aaaaaaaaaa")
  exact ⟨h.1, (h.2 (by norm_num)).1⟩

/-! ### Claim C3 -/

/-- Claim C3: a build over N flashcards produces exactly N note rows and
N card rows, in input order, each note's fields string being
`front + SEP + back`; the empty input still yields a structurally valid
snapshot (a singleton collection row, empty notes/cards/revlog/graves
relations). -/
theorem c3_theorem (cards : List Flashcard) (deckName : String)
    (now deckId modelId : Int) (guid : Nat → String) :
    (buildCollection cards deckName now deckId modelId guid).notes.length = cards.length ∧
    (buildCollection cards deckName now deckId modelId guid).cards.length = cards.length ∧
    (buildCollection cards deckName now deckId modelId guid).notes.map (fun r => r.flds) =
      cards.map (fun c => c.front ++ SEP ++ c.back) ∧
    (buildCollection cards deckName now deckId modelId guid).col.length = 1 ∧
    (buildCollection cards deckName now deckId modelId guid).revlog = [] ∧
    (buildCollection cards deckName now deckId modelId guid).graves = [] ∧
    (cards = [] →
      (buildCollection cards deckName now deckId modelId guid).notes = [] ∧
      (buildCollection cards deckName now deckId modelId guid).cards = []) := by
  refine ⟨by simp [buildCollection], by simp [buildCollection], ?_, rfl, rfl, rfl,
    fun h => by simp [buildCollection, h]⟩
  rw [notes_map]
  rw [show (fun p : Nat × Flashcard => (mkNoteRow now modelId (guid p.1) p.1 p.2).flds)
      = fun p : Nat × Flashcard => p.2.front ++ SEP ++ p.2.back from ?_]
  · exact enum_map_snd_comp cards fun c => c.front ++ SEP ++ c.back
  · funext p
    simp [mkNoteRow, jsOrEmpty_eq]

/-- Claim C3 (witness): the concrete 2-card build and the concrete empty
build. -/
theorem c3_witness :
    (buildCollection [{ front := "Q1", back := "A1" }, { front := "Q2", back := "A2" }]
        "Test" 1700000000000 2 3 (fun _ => "aaaaaaaaaa")).notes.length = 2 ∧
    (buildCollection [{ front := "Q1", back := "A1" }, { front := "Q2", back := "A2" }]
        "Test" 1700000000000 2 3 (fun _ => "aaaaaaaaaa")).notes.map (fun r => r.flds) =
      ["Q1\x1fA1", "Q2\x1fA2"] ∧
    (buildCollection [] "Test" 1700000000000 2 3 (fun _ => "aaaaaaaaaa")).notes = [] := by
  have h2 := c3_theorem [{ front := "Q1", back := "A1" }, { front := "Q2", back := "A2" }]
    "Test" 1700000000000 2 3 (fun _ => "aaaaaaaaaa")
  have h0 := c3_theorem [] "Test" 1700000000000 2 3 (fun _ => "aaaaaaaaaa")
  refine ⟨h2.1, ?_, (h0.2.2.2.2.2.2 rfl).1⟩
  rw [h2.2.2.1]
  decide

/-! ### Claim C10 -/

/-- Claim C10 (counterexample): the text `"null"` parses as JSON, yet it
is not returned as the record sequence — the source logs
`parsed.length` inside the `try`, which throws on `null`, so the parser
falls into recovery and (the text containing no `[`) raises the
unparseable-output error. -/
theorem c10_counterexample :
    jsonParse (cleanText "null".data) = some .null ∧
    parseJSON "null" = .error errNoJson := ⟨rfl, rfl⟩

/-- Claim C10 (amended): a successful structural parse is returned as-is
with no shape validation whenever the parsed value is not the top-level
`null` — in particular a bare object, `[42]` and `[\x7b\x7d]` are all
returned as the record sequence rather than raising an error; a
top-level `null` instead falls through to recovery. -/
theorem c10_theorem :
    (∀ (t : String) (v : Json),
      jsonParse (cleanText t.data) = some v → v ≠ .null → parseJSON t = .ok v) ∧
    parseJSON "[42]" = .ok (.arr [.num "42"]) ∧
    parseJSON "[\x7b\x7d]" = .ok (.arr [.obj []]) ∧
    parseJSON "\x7b\"a\":1\x7d" = .ok (.obj [("a", .num "1")]) := by
  refine ⟨fun t v h hv => ?_, rfl, rfl, rfl⟩
  unfold parseJSON parseClean
  rw [h]
  cases v with
  | null => exact absurd rfl hv
  | bool b => rfl
  | num l => rfl
  | str s => rfl
  | arr vs => rfl
  | obj ms => rfl

/-- Claim C10 (witness): the no-validation branch applied at the
concrete input `"[1]"`. -/
theorem c10_witness : parseJSON "[1]" = .ok (.arr [.num "1"]) :=
  (c10_theorem).1 "[1]" (.arr [.num "1"]) rfl (by simp)

/-! ### Claim C1 -/

/-- Claim C1 (counterexample): a text with no `[` character but with an
object-shaped substring carrying both a `front` and a `back` key that
parses on its own.  The parser raises the unparseable-output failure
without ever running the pattern-extraction strategy, refuting the claim
for texts containing no `[`. -/
theorem c1_counterexample :
    parseJSON "oops: \x7b\"front\":\"a\",\"back\":\"b\"\x7d" = .error errNoJson ∧
    '[' ∉ cleanText "oops: \x7b\"front\":\"a\",\"back\":\"b\"\x7d".data ∧
    jsonParse "\x7b\"front\":\"a\",\"back\":\"b\"\x7d".data =
      some (.obj [("front", .str "a"), ("back", .str "b")]) := by
  refine ⟨rfl, by decide, rfl⟩

/-- Claim C1 (amended): the unparseable-output failure is raised only
when no strategy that runs recovers a record, but the pattern-extraction
strategy only runs on the text from the first `[` onward: whenever the
direct parse fails, the cleaned text contains a `[` and a `}` after it,
the truncation reconstruction also fails to parse, and at least one
object-shaped match after the first `[` parses on its own, the parser
returns exactly those records instead of failing.  (Texts with no `[`
fail immediately even if they contain object-shaped substrings.) -/
theorem c1_theorem (t : String)
    (hdirect : jsonParse (cleanText t.data) = none)
    (hbr : '[' ∈ cleanText t.data)
    (hcb : '\x7d' ∈ sliceFromBracket (cleanText t.data))
    (htrunc : jsonParse (truncKept (sliceFromBracket (cleanText t.data)) ++ [']']) = none)
    (hcards : ((regexMatches (sliceFromBracket (cleanText t.data))).filterMap
        jsonParse).isEmpty = false) :
    parseJSON t =
      .ok (.arr ((regexMatches (sliceFromBracket (cleanText t.data))).filterMap jsonParse)) := by
  unfold parseJSON parseClean
  rw [hdirect]
  unfold recoverTrunc
  rw [if_pos hbr, if_pos hcb, htrunc]
  unfold regexFallback
  simp [hcards]

/-- Claim C1 (witness): a text whose direct parse and truncation
reconstruction both fail but which contains, after the first `[`, an
object-shaped substring parsing on its own; the parser returns that
record. -/
theorem c1_witness :
    parseJSON "[x \x7b\"front\":\"a\",\"back\":\"b\"\x7d" =
      .ok (.arr [.obj [("front", .str "a"), ("back", .str "b")]]) := by
  have h := c1_theorem "[x \x7b\"front\":\"a\",\"back\":\"b\"\x7d" rfl (by decide) (by decide)
    rfl rfl
  rw [h]
  rfl

/-! ### Round-trip lemmas for serialized flashcards (claim C4) -/

theorem skipWs_cons (c : Char) (s : List Char) (h : jsonWs c = false) :
    skipWs (c :: s) = c :: s := by
  simp [skipWs, List.dropWhile_cons, h]

theorem hexVal_hexDigit (n : Nat) (h : n < 16) : hexVal (hexDigit n) = some n := by
  interval_cases n <;> decide

theorem consStr_some (c : Char) (cs rest : List Char) :
    consStr c (some (cs, rest)) = some (c :: cs, rest) := rfl

theorem parseEsc_u (c : Char) (h : c.toNat < 0x20) (R : List Char) :
    parseEsc ('u' :: '0' :: '0' :: hexDigit (c.toNat / 16) :: hexDigit (c.toNat % 16) :: R) =
      some (c, R) := by
  rw [parseEsc]
  rw [show hexVal '0' = some 0 from rfl,
    hexVal_hexDigit (c.toNat / 16) (by omega),
    hexVal_hexDigit (c.toNat % 16) (by omega)]
  show (if ((0 * 16 + 0) * 16 + c.toNat / 16) * 16 + c.toNat % 16 < 0xd800 ∨
      0xdfff < ((0 * 16 + 0) * 16 + c.toNat / 16) * 16 + c.toNat % 16 then
      some (Char.ofNat (((0 * 16 + 0) * 16 + c.toNat / 16) * 16 + c.toNat % 16), R)
    else none) = some (c, R)
  have hn : ((0 * 16 + 0) * 16 + c.toNat / 16) * 16 + c.toNat % 16 = c.toNat := by omega
  rw [hn, if_pos (Or.inl (by omega)), Char.ofNat_toNat]

theorem parseStrBody_rt (s : List Char) :
    ∀ f rest, s.length + 1 ≤ f → parseStrBody f (escStr s ++ '"' :: rest) = some (s, rest) := by
  induction s with
  | nil =>
    intro f rest hf
    match f, hf with
    | g + 1, _ =>
      show parseStrBody (g + 1) ('"' :: rest) = some ([], rest)
      rfl
  | cons c s ih =>
    intro f rest hf
    match f, hf with
    | g + 1, hf =>
      have hg : s.length + 1 ≤ g := by
        simp only [List.length_cons] at hf
        omega
      show parseStrBody (g + 1) ((escChar c ++ escStr s) ++ '"' :: rest) = some (c :: s, rest)
      rw [List.append_assoc]
      unfold escChar
      by_cases h1 : c = '"'
      · subst h1
        rw [if_pos rfl]
        show parseStrBody (g + 1) ('\\' :: '"' :: (escStr s ++ '"' :: rest)) = _
        rw [parseStrBody, if_neg (by decide), if_pos rfl,
          show parseEsc ('"' :: (escStr s ++ '"' :: rest)) =
            some ('"', escStr s ++ '"' :: rest) from rfl]
        rw [show (match some ('"', escStr s ++ '"' :: rest) with
            | some (d, r2) => consStr d (parseStrBody g r2)
            | none => none) = consStr '"' (parseStrBody g (escStr s ++ '"' :: rest)) from rfl]
        rw [ih g rest hg, consStr_some]
      · rw [if_neg h1]
        by_cases h2 : c = '\\'
        · subst h2
          rw [if_pos rfl]
          show parseStrBody (g + 1) ('\\' :: '\\' :: (escStr s ++ '"' :: rest)) = _
          rw [parseStrBody, if_neg (by decide), if_pos rfl,
            show parseEsc ('\\' :: (escStr s ++ '"' :: rest)) =
              some ('\\', escStr s ++ '"' :: rest) from rfl]
          rw [show (match some ('\\', escStr s ++ '"' :: rest) with
              | some (d, r2) => consStr d (parseStrBody g r2)
              | none => none) = consStr '\\' (parseStrBody g (escStr s ++ '"' :: rest)) from rfl]
          rw [ih g rest hg, consStr_some]
        · rw [if_neg h2]
          by_cases h3 : c = '\x08'
          · subst h3
            rw [if_pos rfl]
            show parseStrBody (g + 1) ('\\' :: 'b' :: (escStr s ++ '"' :: rest)) = _
            rw [parseStrBody, if_neg (by decide), if_pos rfl,
              show parseEsc ('b' :: (escStr s ++ '"' :: rest)) =
                some ('\x08', escStr s ++ '"' :: rest) from rfl]
            rw [show (match some ('\x08', escStr s ++ '"' :: rest) with
                | some (d, r2) => consStr d (parseStrBody g r2)
                | none => none) = consStr '\x08' (parseStrBody g (escStr s ++ '"' :: rest)) from rfl]
            rw [ih g rest hg, consStr_some]
          · rw [if_neg h3]
            by_cases h4 : c = '\x0c'
            · subst h4
              rw [if_pos rfl]
              show parseStrBody (g + 1) ('\\' :: 'f' :: (escStr s ++ '"' :: rest)) = _
              rw [parseStrBody, if_neg (by decide), if_pos rfl,
                show parseEsc ('f' :: (escStr s ++ '"' :: rest)) =
                  some ('\x0c', escStr s ++ '"' :: rest) from rfl]
              rw [show (match some ('\x0c', escStr s ++ '"' :: rest) with
                  | some (d, r2) => consStr d (parseStrBody g r2)
                  | none => none) = consStr '\x0c' (parseStrBody g (escStr s ++ '"' :: rest)) from rfl]
              rw [ih g rest hg, consStr_some]
            · rw [if_neg h4]
              by_cases h5 : c = '\n'
              · subst h5
                rw [if_pos rfl]
                show parseStrBody (g + 1) ('\\' :: 'n' :: (escStr s ++ '"' :: rest)) = _
                rw [parseStrBody, if_neg (by decide), if_pos rfl,
                  show parseEsc ('n' :: (escStr s ++ '"' :: rest)) =
                    some ('\n', escStr s ++ '"' :: rest) from rfl]
                rw [show (match some ('\n', escStr s ++ '"' :: rest) with
                    | some (d, r2) => consStr d (parseStrBody g r2)
                    | none => none) = consStr '\n' (parseStrBody g (escStr s ++ '"' :: rest)) from rfl]
                rw [ih g rest hg, consStr_some]
              · rw [if_neg h5]
                by_cases h6 : c = '\r'
                · subst h6
                  rw [if_pos rfl]
                  show parseStrBody (g + 1) ('\\' :: 'r' :: (escStr s ++ '"' :: rest)) = _
                  rw [parseStrBody, if_neg (by decide), if_pos rfl,
                    show parseEsc ('r' :: (escStr s ++ '"' :: rest)) =
                      some ('\r', escStr s ++ '"' :: rest) from rfl]
                  rw [show (match some ('\r', escStr s ++ '"' :: rest) with
                      | some (d, r2) => consStr d (parseStrBody g r2)
                      | none => none) = consStr '\r' (parseStrBody g (escStr s ++ '"' :: rest)) from rfl]
                  rw [ih g rest hg, consStr_some]
                · rw [if_neg h6]
                  by_cases h7 : c = '\t'
                  · subst h7
                    rw [if_pos rfl]
                    show parseStrBody (g + 1) ('\\' :: 't' :: (escStr s ++ '"' :: rest)) = _
                    rw [parseStrBody, if_neg (by decide), if_pos rfl,
                      show parseEsc ('t' :: (escStr s ++ '"' :: rest)) =
                        some ('\t', escStr s ++ '"' :: rest) from rfl]
                    rw [show (match some ('\t', escStr s ++ '"' :: rest) with
                        | some (d, r2) => consStr d (parseStrBody g r2)
                        | none => none) = consStr '\t' (parseStrBody g (escStr s ++ '"' :: rest)) from rfl]
                    rw [ih g rest hg, consStr_some]
                  · rw [if_neg h7]
                    by_cases h8 : c.toNat < 0x20
                    · rw [if_pos h8]
                      show parseStrBody (g + 1) ('\\' :: 'u' :: '0' :: '0' ::
                        hexDigit (c.toNat / 16) :: hexDigit (c.toNat % 16) ::
                        (escStr s ++ '"' :: rest)) = _
                      rw [parseStrBody, if_neg (by decide), if_pos rfl,
                        parseEsc_u c h8 (escStr s ++ '"' :: rest)]
                      rw [show (match some (c, escStr s ++ '"' :: rest) with
                          | some (d, r2) => consStr d (parseStrBody g r2)
                          | none => none) = consStr c (parseStrBody g (escStr s ++ '"' :: rest)) from rfl]
                      rw [ih g rest hg, consStr_some]
                    · rw [if_neg h8]
                      show parseStrBody (g + 1) (c :: (escStr s ++ '"' :: rest)) = _
                      rw [parseStrBody, if_neg h1, if_neg h2, if_neg h8,
                        ih g rest hg, consStr_some]

theorem skipWs_quote (X : List Char) : skipWs ('"' :: X) = '"' :: X := rfl

theorem skipWs_colon (X : List Char) : skipWs (':' :: X) = ':' :: X := rfl

theorem skipWs_comma (X : List Char) : skipWs (',' :: X) = ',' :: X := rfl

theorem skipWs_rbrace (X : List Char) : skipWs ('\x7d' :: X) = '\x7d' :: X := rfl

theorem skipWs_rbracket (X : List Char) : skipWs (']' :: X) = ']' :: X := rfl

theorem parseVal_quote (f : Nat) (r : List Char) :
    parseVal (f + 1) ('"' :: r) =
      match parseStrBody (r.length + 1) r with
      | some (cs, r2) => some (.str (String.mk cs), r2)
      | none => none := rfl

theorem parseVal_brace (f : Nat) (r : List Char) :
    parseVal (f + 1) ('\x7b' :: r) =
      match skipWs r with
      | '\x7d' :: r2 => some (.obj [], r2)
      | _ =>
        match parseMembers f r with
        | some (ms, r2) => some (.obj ms, r2)
        | none => none := rfl

theorem parseVal_bracket (f : Nat) (r : List Char) :
    parseVal (f + 1) ('[' :: r) =
      match skipWs r with
      | ']' :: r2 => some (.arr [], r2)
      | _ =>
        match parseElems f r with
        | some (vs, r2) => some (.arr vs, r2)
        | none => none := rfl

theorem parseElems_succ (f : Nat) (s : List Char) :
    parseElems (f + 1) s =
      match parseVal f s with
      | some (v, r) =>
        match skipWs r with
        | ',' :: r2 =>
          match parseElems f r2 with
          | some (vs, r3) => some (v :: vs, r3)
          | none => none
        | ']' :: r2 => some ([v], r2)
        | _ => none
      | none => none := rfl

theorem parseMembers_quote (f : Nat) (r : List Char) :
    parseMembers (f + 1) ('"' :: r) =
      match parseStrBody (r.length + 1) r with
      | some (k, r2) =>
        match skipWs r2 with
        | ':' :: r3 =>
          match parseVal f r3 with
          | some (v, r4) =>
            match skipWs r4 with
            | ',' :: r5 =>
              match parseMembers f r5 with
              | some (ms, r6) => some ((String.mk k, v) :: ms, r6)
              | none => none
            | '\x7d' :: r5 => some ([(String.mk k, v)], r5)
            | _ => none
          | none => none
        | _ => none
      | none => none := rfl

theorem escChar_length (c : Char) : 1 ≤ (escChar c).length := by
  unfold escChar
  split_ifs <;> simp

theorem escStr_length (s : List Char) : s.length ≤ (escStr s).length := by
  induction s with
  | nil => simp [escStr]
  | cons c s ih =>
    show (c :: s).length ≤ (escChar c ++ escStr s).length
    have := escChar_length c
    simp only [List.length_cons, List.length_append]
    omega

theorem serStr_eq (k : String) (rest : List Char) :
    serStr k ++ rest = '"' :: (escStr k.data ++ '"' :: rest) := by
  simp [serStr]

/-- A serialized JSON string parses back to itself as a value (any
positive parser fuel works; the string body has its own fuel). -/
theorem sv_rt (str : String) (f : Nat) (rest : List Char) :
    parseVal (f + 1) (serStr str ++ rest) = some (.str str, rest) := by
  rw [serStr_eq, parseVal_quote]
  rw [parseStrBody_rt str.data _ rest (by
    have := escStr_length str.data
    simp only [List.length_append, List.length_cons]
    omega)]

/-- Elements of a serialized array body parse back in order (generic in
the element round-trip property, with a uniform fuel bound `F`). -/
theorem elems_rt (F : Nat) (es : List (List Char × Json))
    (hval : ∀ e ∈ es, ∀ f rest, F ≤ f → parseVal f (e.1 ++ rest) = some (e.2, rest)) :
    es ≠ [] → ∀ f rest, es.length + F ≤ f →
      parseElems f (serElemsList (es.map fun e => e.1) ++ ']' :: rest) =
        some (es.map fun e => e.2, rest) := by
  induction es with
  | nil => intro h; exact absurd rfl h
  | cons e es ih =>
    intro _ f rest hf
    obtain ⟨g, rfl⟩ : ∃ g, f = g + 1 := ⟨f - 1, by simp at hf; omega⟩
    rw [parseElems_succ]
    match es with
    | [] =>
      show (match parseVal g (e.1 ++ ']' :: rest) with
        | some (v, r) =>
          match skipWs r with
          | ',' :: r2 =>
            match parseElems g r2 with
            | some (vs, r3) => some (v :: vs, r3)
            | none => none
          | ']' :: r2 => some ([v], r2)
          | _ => none
        | none => none) = _
      rw [hval e (by simp) g (']' :: rest) (by simp at hf; omega)]
      simp [skipWs_rbracket]
    | e2 :: es2 =>
      show (match parseVal g ((e.1 ++ ',' :: serElemsList ((e2 :: es2).map fun e => e.1)) ++ ']' :: rest) with
        | some (v, r) =>
          match skipWs r with
          | ',' :: r2 =>
            match parseElems g r2 with
            | some (vs, r3) => some (v :: vs, r3)
            | none => none
          | ']' :: r2 => some ([v], r2)
          | _ => none
        | none => none) = _
      rw [List.append_assoc]
      rw [hval e (by simp) g _ (by simp at hf; omega)]
      show (match skipWs (',' :: (serElemsList ((e2 :: es2).map fun e => e.1) ++ ']' :: rest)) with
        | ',' :: r2 =>
          match parseElems g r2 with
          | some (vs, r3) => some (e.2 :: vs, r3)
          | none => none
        | ']' :: r2 => some ([e.2], r2)
        | _ => none) = _
      rw [skipWs_comma]
      show (match parseElems g (serElemsList ((e2 :: es2).map fun e => e.1) ++ ']' :: rest) with
        | some (vs, r3) => some (e.2 :: vs, r3)
        | none => none) = _
      rw [ih (fun x hx => hval x (List.mem_cons_of_mem e hx)) (by simp) g rest
        (by simp at hf ⊢; omega)]
      rfl

/-- Members of a serialized object body parse back in order (generic in
the member-value round-trip property, with a uniform fuel bound `F`). -/
theorem members_rt (F : Nat) (ms : List (String × List Char × Json))
    (hval : ∀ m ∈ ms, ∀ f rest, F ≤ f → parseVal f (m.2.1 ++ rest) = some (m.2.2, rest)) :
    ms ≠ [] → ∀ f rest, ms.length + F ≤ f →
      parseMembers f (serMembersList (ms.map fun m => (m.1, m.2.1)) ++ '\x7d' :: rest) =
        some (ms.map fun m => (m.1, m.2.2), rest) := by
  induction ms with
  | nil => intro h; exact absurd rfl h
  | cons m ms ih =>
    intro _ f rest hf
    obtain ⟨g, rfl⟩ : ∃ g, f = g + 1 := ⟨f - 1, by simp at hf; omega⟩
    match ms with
    | [] =>
      show parseMembers (g + 1) ((serStr m.1 ++ ':' :: m.2.1) ++ '\x7d' :: rest) = _
      rw [List.append_assoc, List.cons_append, serStr_eq, parseMembers_quote]
      rw [parseStrBody_rt m.1.data _ _ (by
        have := escStr_length m.1.data
        simp only [List.length_append, List.length_cons]
        omega)]
      show (match skipWs (':' :: (m.2.1 ++ '\x7d' :: rest)) with
        | ':' :: r3 =>
          match parseVal g r3 with
          | some (v, r4) =>
            match skipWs r4 with
            | ',' :: r5 =>
              match parseMembers g r5 with
              | some (ms2, r6) => some ((String.mk m.1.data, v) :: ms2, r6)
              | none => none
            | '\x7d' :: r5 => some ([(String.mk m.1.data, v)], r5)
            | _ => none
          | none => none
        | _ => none) = _
      rw [skipWs_colon]
      show (match parseVal g (m.2.1 ++ '\x7d' :: rest) with
        | some (v, r4) =>
          match skipWs r4 with
          | ',' :: r5 =>
            match parseMembers g r5 with
            | some (ms2, r6) => some ((String.mk m.1.data, v) :: ms2, r6)
            | none => none
          | '\x7d' :: r5 => some ([(String.mk m.1.data, v)], r5)
          | _ => none
        | none => none) = _
      rw [hval m (by simp) g _ (by simp at hf; omega)]
      show (match skipWs ('\x7d' :: rest) with
        | ',' :: r5 =>
          match parseMembers g r5 with
          | some (ms2, r6) => some ((String.mk m.1.data, m.2.2) :: ms2, r6)
          | none => none
        | '\x7d' :: r5 => some ([(String.mk m.1.data, m.2.2)], r5)
        | _ => none) = _
      rw [skipWs_rbrace]
      rfl
    | m2 :: ms2 =>
      show parseMembers (g + 1)
        ((serStr m.1 ++ ':' :: m.2.1 ++ ',' :: serMembersList ((m2 :: ms2).map fun x => (x.1, x.2.1)))
          ++ '\x7d' :: rest) = _
      rw [List.append_assoc, List.append_assoc, List.cons_append, List.cons_append, serStr_eq,
        parseMembers_quote]
      rw [parseStrBody_rt m.1.data _ _ (by
        have := escStr_length m.1.data
        simp only [List.length_append, List.length_cons]
        omega)]
      show (match skipWs (':' :: (m.2.1 ++
          (',' :: (serMembersList ((m2 :: ms2).map fun x => (x.1, x.2.1)) ++ '\x7d' :: rest)))) with
        | ':' :: r3 =>
          match parseVal g r3 with
          | some (v, r4) =>
            match skipWs r4 with
            | ',' :: r5 =>
              match parseMembers g r5 with
              | some (ms3, r6) => some ((String.mk m.1.data, v) :: ms3, r6)
              | none => none
            | '\x7d' :: r5 => some ([(String.mk m.1.data, v)], r5)
            | _ => none
          | none => none
        | _ => none) = _
      rw [skipWs_colon]
      show (match parseVal g (m.2.1 ++
          (',' :: (serMembersList ((m2 :: ms2).map fun x => (x.1, x.2.1)) ++ '\x7d' :: rest))) with
        | some (v, r4) =>
          match skipWs r4 with
          | ',' :: r5 =>
            match parseMembers g r5 with
            | some (ms3, r6) => some ((String.mk m.1.data, v) :: ms3, r6)
            | none => none
          | '\x7d' :: r5 => some ([(String.mk m.1.data, v)], r5)
          | _ => none
        | none => none) = _
      rw [hval m (by simp) g _ (by simp at hf; omega)]
      show (match skipWs (',' ::
          (serMembersList ((m2 :: ms2).map fun x => (x.1, x.2.1)) ++ '\x7d' :: rest)) with
        | ',' :: r5 =>
          match parseMembers g r5 with
          | some (ms3, r6) => some ((String.mk m.1.data, m.2.2) :: ms3, r6)
          | none => none
        | '\x7d' :: r5 => some ([(String.mk m.1.data, m.2.2)], r5)
        | _ => none) = _
      rw [skipWs_comma]
      show (match parseMembers g
          (serMembersList ((m2 :: ms2).map fun x => (x.1, x.2.1)) ++ '\x7d' :: rest) with
        | some (ms3, r6) => some ((String.mk m.1.data, m.2.2) :: ms3, r6)
        | none => none) = _
      rw [ih (fun x hx => hval x (List.mem_cons_of_mem m hx)) (by simp) g rest
        (by simp at hf ⊢; omega)]
      rfl

theorem serElems_strs_head (t : String) (ts : List String) (X : List Char) :
    ∃ Y, serElemsList ((t :: ts).map serStr) ++ X = '"' :: Y := by
  cases ts <;> simp [serElemsList, serStr]

/-- A serialized string array parses back to the array of its strings. -/
theorem tags_rt (ts : List String) (f : Nat) (rest : List Char)
    (hf : ts.length + 2 ≤ f) :
    parseVal f (serTags ts ++ rest) = some (.arr (ts.map Json.str), rest) := by
  obtain ⟨g, rfl⟩ : ∃ g, f = g + 1 := ⟨f - 1, by omega⟩
  match ts with
  | [] =>
    show parseVal (g + 1) ('[' :: (']' :: rest)) = _
    rw [parseVal_bracket, skipWs_rbracket]
    rfl
  | t :: ts2 =>
    show parseVal (g + 1) ('[' :: ((serElemsList ((t :: ts2).map serStr) ++ [']']) ++ rest)) = _
    rw [List.append_assoc]
    simp only [List.cons_append, List.nil_append]
    obtain ⟨Y, hY⟩ := serElems_strs_head t ts2 (']' :: rest)
    rw [parseVal_bracket, hY, skipWs_quote]
    show (match parseElems g ('"' :: Y) with
      | some (vs, r2) => some (Json.arr vs, r2)
      | none => none) = _
    rw [← hY]
    rw [show serElemsList ((t :: ts2).map serStr) =
        serElemsList (((t :: ts2).map fun s => (serStr s, Json.str s)).map fun e => e.1) by
      rw [List.map_map]
      rfl]
    rw [elems_rt 1 ((t :: ts2).map fun s => (serStr s, Json.str s))
      (by
        rintro e he f2 rest2 hf2
        simp only [List.mem_map] at he
        obtain ⟨s, _, rfl⟩ := he
        obtain ⟨f3, rfl⟩ : ∃ f3, f2 = f3 + 1 := ⟨f2 - 1, by omega⟩
        exact sv_rt s f3 rest2)
      (by simp) g rest (by simp at hf ⊢; omega)]
    simp

theorem serMembers_head (k : String) (v : List Char) (ms : List (String × List Char))
    (X : List Char) : ∃ Y, serMembersList ((k, v) :: ms) ++ X = '"' :: Y := by
  cases ms <;> simp [serMembersList, serStr]

theorem cardTriples_length (c : Flashcard) : (cardTriples c).length ≤ 4 := by
  obtain ⟨fr, bk, ty, tg⟩ := c
  cases ty <;> cases tg <;> simp [cardTriples]

theorem cardTriples_vals (c : Flashcard) :
    ∀ m ∈ cardTriples c, ∀ f rest, fuelVals c ≤ f →
      parseVal f (m.2.1 ++ rest) = some (m.2.2, rest) := by
  have hstr : ∀ (s : String) (f : Nat) (rest : List Char), 2 ≤ f →
      parseVal f (serStr s ++ rest) = some (Json.str s, rest) := by
    intro s f rest hf
    obtain ⟨f2, rfl⟩ : ∃ f2, f = f2 + 1 := ⟨f - 1, by omega⟩
    exact sv_rt s f2 rest
  obtain ⟨fr, bk, ty, tg⟩ := c
  intro m hm f rest hf
  have hf2 : 2 ≤ f := by
    simp only [fuelVals] at hf
    omega
  cases ty <;> cases tg <;>
    simp only [cardTriples, List.mem_append, List.mem_singleton, List.mem_cons,
      List.not_mem_nil, or_false, List.append_nil, List.nil_append] at hm
  · rcases hm with rfl | rfl
    · exact hstr fr f rest hf2
    · exact hstr bk f rest hf2
  · rcases hm with (rfl | rfl) | rfl
    · exact hstr fr f rest hf2
    · exact hstr bk f rest hf2
    · exact tags_rt _ f rest (by simp only [fuelVals] at hf; omega)
  · rcases hm with (rfl | rfl) | rfl
    · exact hstr fr f rest hf2
    · exact hstr bk f rest hf2
    · exact hstr _ f rest hf2
  · rcases hm with ((rfl | rfl) | rfl) | rfl
    · exact hstr fr f rest hf2
    · exact hstr bk f rest hf2
    · exact hstr _ f rest hf2
    · exact tags_rt _ f rest (by simp only [fuelVals] at hf; omega)

theorem card_rt (c : Flashcard) (f : Nat) (rest : List Char) (hf : fuelCard c ≤ f) :
    parseVal f (serCard c ++ rest) = some (cardToJson c, rest) := by
  obtain ⟨g, rfl⟩ : ∃ g, f = g + 1 := ⟨f - 1, by simp [fuelCard] at hf; omega⟩
  show parseVal (g + 1)
    ('\x7b' :: ((serMembersList ((cardTriples c).map fun m => (m.1, m.2.1)) ++ ['\x7d']) ++ rest)) = _
  rw [List.append_assoc]
  simp only [List.cons_append, List.nil_append]
  have htail : (cardTriples c).map (fun m => (m.1, m.2.1)) =
      ("front", serStr c.front) :: (((cardTriples c).tail).map fun m => (m.1, m.2.1)) := rfl
  obtain ⟨Y, hY⟩ := serMembers_head "front" (serStr c.front)
    (((cardTriples c).tail).map fun m => (m.1, m.2.1)) ('\x7d' :: rest)
  rw [parseVal_brace, htail, hY, skipWs_quote]
  show (match parseMembers g ('"' :: Y) with
    | some (ms, r2) => some (Json.obj ms, r2)
    | none => none) = _
  rw [← hY, ← htail]
  rw [members_rt (fuelVals c) (cardTriples c) (cardTriples_vals c)
    (by
      obtain ⟨fr, bk, ty, tg⟩ := c
      cases ty <;> cases tg <;> simp [cardTriples])
    g rest
    (by
      obtain ⟨fr, bk, ty, tg⟩ := c
      have h1 := cardTriples_length (Flashcard.mk fr bk ty tg)
      simp only [fuelVals, fuelCard] at hf ⊢
      cases tg <;> simp at hf h1 ⊢ <;> omega)]
  rfl

theorem skipWs_nil : skipWs [] = [] := rfl

/-- Parsing a serialized array body with no closing `]` fails. -/
theorem elems_nofinish (F : Nat) (es : List (List Char × Json))
    (hval : ∀ e ∈ es, ∀ f rest, F ≤ f → parseVal f (e.1 ++ rest) = some (e.2, rest)) :
    es ≠ [] → ∀ f, es.length + F ≤ f →
      parseElems f (serElemsList (es.map fun e => e.1)) = none := by
  induction es with
  | nil => intro h; exact absurd rfl h
  | cons e es ih =>
    intro _ f hf
    obtain ⟨g, rfl⟩ : ∃ g, f = g + 1 := ⟨f - 1, by simp at hf; omega⟩
    rw [parseElems_succ]
    match es with
    | [] =>
      show (match parseVal g e.1 with
        | some (v, r) =>
          match skipWs r with
          | ',' :: r2 =>
            match parseElems g r2 with
            | some (vs, r3) => some (v :: vs, r3)
            | none => none
          | ']' :: r2 => some ([v], r2)
          | _ => none
        | none => none) = none
      rw [show e.1 = e.1 ++ ([] : List Char) from (List.append_nil _).symm,
        hval e (by simp) g [] (by simp at hf; omega)]
      rfl
    | e2 :: es2 =>
      show (match parseVal g (e.1 ++ ',' :: serElemsList ((e2 :: es2).map fun e => e.1)) with
        | some (v, r) =>
          match skipWs r with
          | ',' :: r2 =>
            match parseElems g r2 with
            | some (vs, r3) => some (v :: vs, r3)
            | none => none
          | ']' :: r2 => some ([v], r2)
          | _ => none
        | none => none) = none
      rw [hval e (by simp) g _ (by simp at hf; omega)]
      show (match skipWs (',' :: serElemsList ((e2 :: es2).map fun e => e.1)) with
        | ',' :: r2 =>
          match parseElems g r2 with
          | some (vs, r3) => some (e.2 :: vs, r3)
          | none => none
        | ']' :: r2 => some ([e.2], r2)
        | _ => none) = none
      rw [skipWs_comma]
      show (match parseElems g (serElemsList ((e2 :: es2).map fun e => e.1)) with
        | some (vs, r3) => some (e.2 :: vs, r3)
        | none => none) = none
      rw [ih (fun x hx => hval x (List.mem_cons_of_mem e hx)) (by simp) g
        (by simp at hf ⊢; omega)]

/-! ### Length bounds for the fuel arguments -/

theorem serElems_strs_length (ts : List String) :
    ts.length ≤ (serElemsList (ts.map serStr)).length + 1 := by
  induction ts with
  | nil => simp [serElemsList]
  | cons t ts ih =>
    match ts with
    | [] => simp [serElemsList, serStr]
    | t2 :: ts2 =>
      show (t :: t2 :: ts2).length ≤
        (serStr t ++ ',' :: serElemsList ((t2 :: ts2).map serStr)).length + 1
      simp only [List.length_cons, List.length_append, serStr] at ih ⊢
      omega

theorem serTags_length (ts : List String) : ts.length ≤ (serTags ts).length := by
  match ts with
  | [] => simp [serTags]
  | t :: ts2 =>
    have := serElems_strs_length (t :: ts2)
    simp only [serTags, List.length_cons, List.length_append] at this ⊢
    omega

theorem serCard_length (c : Flashcard) : fuelCard c + 2 ≤ (serCard c).length := by
  obtain ⟨fr, bk, ty, tg⟩ := c
  cases ty <;> cases tg <;>
    simp only [serCard, fuelCard, cardTriples, serMembersList, serStr, List.map,
      List.nil_append, List.append_nil, List.cons_append, List.length_cons,
      List.length_append, List.singleton_append]
  all_goals
    have e1 : (escStr ['f', 'r', 'o', 'n', 't']).length = 5 := rfl
  all_goals
    have e2 : (escStr ['b', 'a', 'c', 'k']).length = 4 := rfl
  all_goals
    have e3 : (escStr ['t', 'y', 'p', 'e']).length = 4 := rfl
  all_goals
    first
      | omega
      | (rename_i ts
         have := serTags_length ts
         simp only [List.length_cons] at this ⊢
         omega)

theorem fuelCard_le_fuelCards (c : Flashcard) (l : List Flashcard) (h : c ∈ l) :
    fuelCard c ≤ fuelCards l := by
  induction l with
  | nil => simp at h
  | cons x l ih =>
    rcases List.mem_cons.mp h with rfl | h2
    · simp [fuelCards]; omega
    · have := ih h2
      simp [fuelCards]
      omega

theorem serElems_cards_length (l : List Flashcard) :
    l ≠ [] → l.length + fuelCards l + 1 ≤ (serElemsList (l.map serCard)).length + 2 := by
  induction l with
  | nil => intro h; exact absurd rfl h
  | cons c l ih =>
    intro _
    match l with
    | [] =>
      have := serCard_length c
      simp only [serElemsList, List.map, List.length_cons, fuelCards, List.length_nil]
      omega
    | c2 :: l2 =>
      have h1 := ih (by simp)
      have h2 := serCard_length c
      show (c :: c2 :: l2).length + fuelCards (c :: c2 :: l2) + 1 ≤
        (serCard c ++ ',' :: serElemsList ((c2 :: l2).map serCard)).length + 2
      simp only [List.length_cons, List.length_append, fuelCards] at h1 h2 ⊢
      omega

theorem skipWs_lbrace (X : List Char) : skipWs ('\x7b' :: X) = '\x7b' :: X := rfl

theorem serElems_cards_head (c : Flashcard) (l : List Flashcard) :
    ∃ Y, serElemsList ((c :: l).map serCard) = '\x7b' :: Y := by
  cases l <;> simp [serElemsList, serCard]

theorem serElems_cards_ends (l : List Flashcard) : l ≠ [] →
    ∃ B, serElemsList (l.map serCard) = B ++ ['\x7d'] := by
  induction l with
  | nil => intro h; exact absurd rfl h
  | cons c l ih =>
    intro _
    match l with
    | [] =>
      refine ⟨'\x7b' :: serMembersList ((cardTriples c).map fun m => (m.1, m.2.1)), ?_⟩
      simp [serElemsList, serCard]
    | c2 :: l2 =>
      obtain ⟨B, hB⟩ := ih (by simp)
      refine ⟨serCard c ++ ',' :: B, ?_⟩
      show serCard c ++ ',' :: serElemsList ((c2 :: l2).map serCard) = _
      rw [hB]
      simp

theorem take_ne_nil (cards : List Flashcard) (k : Nat) (hk1 : 1 ≤ k)
    (hk2 : k ≤ cards.length) : cards.take k ≠ [] := by
  intro h
  have h2 : (cards.take k).length = min k cards.length := List.length_take k cards
  rw [h] at h2
  simp at h2
  omega

theorem cut_parse_none (cards : List Flashcard) (k : Nat) (hk1 : 1 ≤ k)
    (hk2 : k ≤ cards.length) : jsonParse (cutText cards k) = none := by
  obtain ⟨c0, tk, htk⟩ : ∃ c0 tk, cards.take k = c0 :: tk := by
    match h : cards.take k with
    | [] => exact absurd h (take_ne_nil cards k hk1 hk2)
    | c0 :: tk => exact ⟨c0, tk, rfl⟩
  unfold jsonParse
  rw [show cutText cards k = '[' :: serElemsList ((cards.take k).map serCard) from rfl]
  rw [show (('[' :: serElemsList ((cards.take k).map serCard)).length + 1) =
    (serElemsList ((cards.take k).map serCard)).length + 1 + 1 by simp]
  rw [parseVal_bracket]
  obtain ⟨Y, hY⟩ := serElems_cards_head c0 tk
  rw [htk, hY, skipWs_lbrace]
  show (match (match parseElems (('\x7b' :: Y).length + 1) ('\x7b' :: Y) with
      | some (vs, r2) => some (Json.arr vs, r2)
      | none => none) with
    | some (v, r) => if (skipWs r).isEmpty = true then some v else none
    | none => none) = none
  rw [← hY]
  rw [show serElemsList ((c0 :: tk).map serCard) =
      serElemsList (((c0 :: tk).map fun c => (serCard c, cardToJson c)).map fun e => e.1) by
    rw [List.map_map]
    rfl]
  rw [elems_nofinish (fuelCards (c0 :: tk)) ((c0 :: tk).map fun c => (serCard c, cardToJson c))
    (by
      rintro e he f2 rest2 hf2
      simp only [List.mem_map] at he
      obtain ⟨c, hc, rfl⟩ := he
      exact card_rt c f2 rest2 (le_trans (fuelCard_le_fuelCards c _ hc) hf2))
    (by simp)
    ((serElemsList (((c0 :: tk).map fun c => (serCard c, cardToJson c)).map fun e => e.1)).length + 1)
    (by
      have := serElems_cards_length (c0 :: tk) (by simp)
      rw [show ((c0 :: tk).map fun c => (serCard c, cardToJson c)).map (fun e => e.1) =
        (c0 :: tk).map serCard by rw [List.map_map]; rfl]
      simp only [List.length_map, List.length_cons] at this ⊢
      omega)]

theorem recovered_parse (cards : List Flashcard) (k : Nat) (hk1 : 1 ≤ k)
    (hk2 : k ≤ cards.length) :
    jsonParse (cutText cards k ++ [']']) =
      some (.arr ((cards.take k).map cardToJson)) := by
  obtain ⟨c0, tk, htk⟩ : ∃ c0 tk, cards.take k = c0 :: tk := by
    match h : cards.take k with
    | [] => exact absurd h (take_ne_nil cards k hk1 hk2)
    | c0 :: tk => exact ⟨c0, tk, rfl⟩
  unfold jsonParse
  rw [show cutText cards k ++ [']'] =
    '[' :: (serElemsList ((cards.take k).map serCard) ++ ']' :: []) from rfl]
  rw [show (('[' :: (serElemsList ((cards.take k).map serCard) ++ ']' :: [])).length + 1) =
    ((serElemsList ((cards.take k).map serCard) ++ ']' :: []).length + 1) + 1 by simp]
  rw [parseVal_bracket]
  obtain ⟨Y, hY⟩ := serElems_cards_head c0 tk
  have hYX : serElemsList ((cards.take k).map serCard) ++ ']' :: [] = '\x7b' :: (Y ++ ']' :: []) := by
    rw [htk, hY]
    rfl
  rw [hYX, skipWs_lbrace]
  show (match (match parseElems (('\x7b' :: (Y ++ ']' :: [])).length + 1) ('\x7b' :: (Y ++ ']' :: [])) with
      | some (vs, r2) => some (Json.arr vs, r2)
      | none => none) with
    | some (v, r) => if (skipWs r).isEmpty = true then some v else none
    | none => none) = some (.arr ((cards.take k).map cardToJson))
  rw [← hYX]
  rw [show serElemsList ((cards.take k).map serCard) =
      serElemsList (((cards.take k).map fun c => (serCard c, cardToJson c)).map fun e => e.1) by
    rw [List.map_map]
    rfl]
  rw [elems_rt (fuelCards (c0 :: tk)) ((cards.take k).map fun c => (serCard c, cardToJson c))
    (by
      rintro e he f2 rest2 hf2
      simp only [List.mem_map] at he
      obtain ⟨c, hc, rfl⟩ := he
      rw [htk] at hc
      exact card_rt c f2 rest2 (le_trans (fuelCard_le_fuelCards c _ hc) hf2))
    (by rw [htk]; simp)
    ((serElemsList (((cards.take k).map fun c => (serCard c, cardToJson c)).map fun e => e.1)
      ++ ']' :: []).length + 1)
    []
    (by
      have := serElems_cards_length (c0 :: tk) (by simp)
      rw [show ((cards.take k).map fun c => (serCard c, cardToJson c)).map (fun e => e.1) =
        (cards.take k).map serCard by rw [List.map_map]; rfl]
      rw [htk]
      simp only [List.length_map, List.length_cons, List.length_append] at this ⊢
      omega)]
  rw [show ((cards.take k).map fun c => (serCard c, cardToJson c)).map (fun e => e.2) =
    (cards.take k).map cardToJson by rw [List.map_map]; rfl]
  rfl

theorem hasTriple_tail (s : List Char) (h : hasTriple s = false) :
    hasTriple s.tail = false := by
  induction s using hasTriple.induct <;> simp_all [hasTriple]

theorem r1_id (s : List Char) (h : hasTriple s = false) : r1 s = s := by
  induction s using r1.induct <;> try simp_all [r1, hasTriple]
  rename_i hcon ih
  exact ih (hasTriple_tail _ h)

theorem r2_id (s : List Char) (h : hasTriple s = false) : r2 s = s := by
  induction s using r2.induct <;> simp_all [r2, hasTriple]

theorem jsTrim_sandwich (c d : Char) (X : List Char) (hc : trimWs c = false)
    (hd : trimWs d = false) : jsTrim (c :: (X ++ [d])) = c :: (X ++ [d]) := by
  unfold jsTrim trimL
  rw [List.dropWhile_cons, hc]
  simp only [Bool.false_eq_true, if_false]
  rw [show (c :: (X ++ [d])).reverse = d :: (X.reverse ++ [c]) by simp]
  rw [List.dropWhile_cons, hd]
  simp

theorem truncKept_ends (A : List Char) :
    truncKept (A ++ ['\x7d']) = A ++ ['\x7d'] := by
  unfold truncKept
  rw [show (A ++ ['\x7d']).reverse = '\x7d' :: A.reverse by simp]
  rw [List.dropWhile_cons]
  simp

/-! ### Claim C4 -/

/-- Claim C4 (counterexample): for the serialized two-card array cut
after the first object's closing brace, the parser does not return the
first record unchanged — the fence stripping deletes the triple backtick
inside the front text, so the recovered record has front `"ab"` instead
of `"a```b"`. -/
theorem c4_counterexample :
    parseJSON (String.mk (cutText [tickCard, plainCard] 1)) =
      .ok (.arr [.obj [("front", .str "ab"), ("back", .str "x")]]) ∧
    parseJSON (String.mk (cutText [tickCard, plainCard] 1)) ≠
      .ok (.arr [cardToJson tickCard]) := by
  constructor
  · rfl
  · intro h
    rw [show parseJSON (String.mk (cutText [tickCard, plainCard] 1)) =
      .ok (.arr [.obj [("front", .str "ab"), ("back", .str "x")]]) from rfl] at h
    rw [show cardToJson tickCard =
      Json.obj [("front", Json.str "a\x60\x60\x60b"), ("back", Json.str "x")] from rfl] at h
    simp only [Except.ok.injEq, Json.arr.injEq, List.cons.injEq, and_true,
      Json.obj.injEq, Prod.mk.injEq, Json.str.injEq, true_and] at h
    exact absurd h (by decide)

/-- Claim C4 (amended): for every serialized array of flashcard objects
containing no triple-backtick run, cut off immediately after the `k`-th
object's closing brace (`1 ≤ k ≤ N`), the parser recovers exactly the
first `k` records unchanged, silently dropping the rest.  (Texts whose
string content contains ``` are corrupted by the fence stripping first,
so the restriction is necessary.) -/
theorem c4_theorem (cards : List Flashcard) (k : Nat) (hk1 : 1 ≤ k)
    (hk2 : k ≤ cards.length) (ht : hasTriple (cutText cards k) = false) :
    parseJSON (String.mk (cutText cards k)) =
      .ok (.arr ((cards.take k).map cardToJson)) := by
  obtain ⟨B, hB⟩ := serElems_cards_ends (cards.take k) (take_ne_nil cards k hk1 hk2)
  have hshape : cutText cards k = '[' :: (B ++ ['\x7d']) := by
    rw [show cutText cards k = '[' :: serElemsList ((cards.take k).map serCard) from rfl, hB]
  have hclean : cleanText (cutText cards k) = cutText cards k := by
    unfold cleanText
    rw [r1_id _ ht, r2_id _ ht]
    rw [hshape]
    exact jsTrim_sandwich '[' '\x7d' B (by decide) (by decide)
  unfold parseJSON parseClean
  rw [show (String.mk (cutText cards k)).data = cutText cards k from rfl]
  rw [hclean, cut_parse_none cards k hk1 hk2]
  unfold recoverTrunc
  rw [if_pos (by rw [hshape]; exact List.mem_cons_self '[' _)]
  rw [show sliceFromBracket (cutText cards k) = cutText cards k by
    rw [hshape]; rfl]
  rw [if_pos (by rw [hshape]; simp)]
  rw [show truncKept (cutText cards k) = cutText cards k by
    rw [hshape, show ('[' : Char) :: (B ++ ['\x7d']) = ('[' :: B) ++ ['\x7d'] by simp,
      truncKept_ends]]
  rw [recovered_parse cards k hk1 hk2]

/-- Claim C4 (witness): the spec's concrete instance — three objects
serialized, cut after the second object's closing brace, recovering
exactly the first two records. -/
theorem c4_witness :
    parseJSON (String.mk (cutText [{ front := "Q1", back := "A1" },
        { front := "Q2", back := "A2" }, { front := "Q3", back := "A3" }] 2)) =
      .ok (.arr [.obj [("front", .str "Q1"), ("back", .str "A1")],
                 .obj [("front", .str "Q2"), ("back", .str "A2")]]) := by
  have h := c4_theorem [{ front := "Q1", back := "A1" },
    { front := "Q2", back := "A2" }, { front := "Q3", back := "A3" }] 2
    (by norm_num) (by norm_num) (by decide)
  rw [h]
  rfl

/-! ### Claim C8: fence insensitivity

Behaviour of the two fence-stripping replacements on a fence appended
at the end of the text.  The closing fence `\n```` may interact with
the end of the text (a text ending in ````json` completes a
````json\n` match), so the lemmas are disjunctions over the
possible leftovers; the final trim absorbs a leftover newline. -/

theorem r2_T3 (A : List Char) : r2 (A ++ ['\x60', '\x60', '\x60']) = r2 A := by
  induction A using r2.induct with
  | case1 rest ih =>
      simp only [List.cons_append]
      show r2 (rest ++ _) = r2 rest
      exact ih
  | case2 rest hx ih =>
      simp only [List.cons_append]
      have hc : ∀ r, rest ++ ['\x60', '\x60', '\x60'] = '\n' :: r → False := by
        intro r hr
        cases rest with
        | nil => simp at hr
        | cons a as =>
            rw [List.cons_append, List.cons.injEq] at hr
            exact hx as (by rw [hr.1])
      rw [r2.eq_2 _ hc, r2.eq_2 _ hx, ih]
  | case3 c rest hx1 hx2 ih =>
      simp only [List.cons_append]
      by_cases hc : c = '\x60'
      · subst hc
        match rest, hx1, hx2, ih with
        | [], _, _, _ => decide
        | [d], _, _, _ =>
            by_cases hd : d = '\x60'
            · subst hd; decide
            · have k1 : ∀ r, ('\x60' : Char) = '\x60' →
                  d :: ['\x60', '\x60', '\x60'] = '\x60' :: '\x60' :: '\n' :: r → False := by
                intro r _ hr; rw [List.cons.injEq] at hr; exact hd hr.1
              have k2 : ∀ r, ('\x60' : Char) = '\x60' →
                  d :: ['\x60', '\x60', '\x60'] = '\x60' :: '\x60' :: r → False := by
                intro r _ hr; rw [List.cons.injEq] at hr; exact hd hr.1
              have k3 : ∀ r, ('\x60' : Char) = '\x60' →
                  [d] = '\x60' :: '\x60' :: '\n' :: r → False := by
                intro r _ hr; rw [List.cons.injEq] at hr; exact hd hr.1
              have k4 : ∀ r, ('\x60' : Char) = '\x60' →
                  [d] = '\x60' :: '\x60' :: r → False := by
                intro r _ hr; rw [List.cons.injEq] at hr; exact hd hr.1
              show r2 ('\x60' :: d :: ['\x60', '\x60', '\x60']) = r2 ['\x60', d]
              rw [r2.eq_3 _ _ k1 k2, r2.eq_3 _ _ k3 k4]
              have kd1 : ∀ r, d = '\x60' → (['\x60', '\x60', '\x60'] : List Char) = '\x60' :: '\x60' :: '\n' :: r → False := by
                intro r hd2 _; exact hd hd2
              have kd2 : ∀ r, d = '\x60' → (['\x60', '\x60', '\x60'] : List Char) = '\x60' :: '\x60' :: r → False := by
                intro r hd2 _; exact hd hd2
              have kd3 : ∀ r, d = '\x60' → ([] : List Char) = '\x60' :: '\x60' :: '\n' :: r → False := by
                intro r hd2 _; exact hd hd2
              have kd4 : ∀ r, d = '\x60' → ([] : List Char) = '\x60' :: '\x60' :: r → False := by
                intro r hd2 _; exact hd hd2
              rw [r2.eq_3 _ _ kd1 kd2, r2.eq_3 _ _ kd3 kd4]
              rfl
        | d :: e :: r, hx1, hx2, ih =>
            by_cases hd : d = '\x60'
            · subst hd
              have he : e ≠ '\x60' := by
                intro he; exact hx2 r rfl (by rw [he])
              have k1 : ∀ s, ('\x60' : Char) = '\x60' →
                  '\x60' :: e :: (r ++ ['\x60', '\x60', '\x60']) = '\x60' :: '\x60' :: '\n' :: s → False := by
                intro s _ hr
                rw [List.cons.injEq, List.cons.injEq] at hr
                exact he hr.2.1
              have k2 : ∀ s, ('\x60' : Char) = '\x60' →
                  '\x60' :: e :: (r ++ ['\x60', '\x60', '\x60']) = '\x60' :: '\x60' :: s → False := by
                intro s _ hr
                rw [List.cons.injEq, List.cons.injEq] at hr
                exact he hr.2.1
              have k3 : ∀ s, ('\x60' : Char) = '\x60' →
                  '\x60' :: e :: r = '\x60' :: '\x60' :: '\n' :: s → False := by
                intro s _ hr
                rw [List.cons.injEq, List.cons.injEq] at hr
                exact he hr.2.1
              have k4 : ∀ s, ('\x60' : Char) = '\x60' →
                  '\x60' :: e :: r = '\x60' :: '\x60' :: s → False := by
                intro s _ hr
                rw [List.cons.injEq, List.cons.injEq] at hr
                exact he hr.2.1
              show r2 ('\x60' :: '\x60' :: e :: (r ++ ['\x60', '\x60', '\x60'])) = r2 ('\x60' :: '\x60' :: e :: r)
              rw [r2.eq_3 _ _ k1 k2, r2.eq_3 _ _ k3 k4]
              exact congrArg (List.cons '\x60') ih
            · have k1 : ∀ s, ('\x60' : Char) = '\x60' →
                  d :: e :: (r ++ ['\x60', '\x60', '\x60']) = '\x60' :: '\x60' :: '\n' :: s → False := by
                intro s _ hr; rw [List.cons.injEq] at hr; exact hd hr.1
              have k2 : ∀ s, ('\x60' : Char) = '\x60' →
                  d :: e :: (r ++ ['\x60', '\x60', '\x60']) = '\x60' :: '\x60' :: s → False := by
                intro s _ hr; rw [List.cons.injEq] at hr; exact hd hr.1
              have k3 : ∀ s, ('\x60' : Char) = '\x60' →
                  d :: e :: r = '\x60' :: '\x60' :: '\n' :: s → False := by
                intro s _ hr; rw [List.cons.injEq] at hr; exact hd hr.1
              have k4 : ∀ s, ('\x60' : Char) = '\x60' →
                  d :: e :: r = '\x60' :: '\x60' :: s → False := by
                intro s _ hr; rw [List.cons.injEq] at hr; exact hd hr.1
              show r2 ('\x60' :: d :: e :: (r ++ ['\x60', '\x60', '\x60'])) = r2 ('\x60' :: d :: e :: r)
              rw [r2.eq_3 _ _ k1 k2, r2.eq_3 _ _ k3 k4]
              exact congrArg (List.cons '\x60') ih
      · have k1 : ∀ s, c = '\x60' → rest ++ ['\x60', '\x60', '\x60'] = '\x60' :: '\x60' :: '\n' :: s → False := by
          intro s hcc _; exact hc hcc
        have k2 : ∀ s, c = '\x60' → rest ++ ['\x60', '\x60', '\x60'] = '\x60' :: '\x60' :: s → False := by
          intro s hcc _; exact hc hcc
        rw [r2.eq_3 _ _ k1 k2, r2.eq_3 _ _ hx1 hx2, ih]
  | case4 => decide

theorem r2_D (A : List Char) :
    r2 (A ++ ['\n', '\x60', '\x60', '\x60']) = r2 A ∨
    r2 (A ++ ['\n', '\x60', '\x60', '\x60']) = r2 A ++ ['\n'] := by
  induction A using r2.induct with
  | case1 rest ih =>
      simp only [List.cons_append]
      show r2 (rest ++ _) = r2 rest ∨ r2 (rest ++ _) = r2 rest ++ ['\n']
      exact ih
  | case2 rest hx ih =>
      simp only [List.cons_append]
      cases rest with
      | nil => exact Or.inl (by decide)
      | cons a as =>
          have ha : a ≠ '\n' := fun h => hx as (by rw [h])
          have hc : ∀ r, (a :: as) ++ ['\n', '\x60', '\x60', '\x60'] = '\n' :: r → False := by
            intro r hr
            rw [List.cons_append, List.cons.injEq] at hr
            exact ha hr.1
          rw [r2.eq_2 _ hc, r2.eq_2 _ hx]
          exact ih
  | case3 c rest hx1 hx2 ih =>
      simp only [List.cons_append]
      have k1 : ∀ s, c = '\x60' →
          rest ++ ['\n', '\x60', '\x60', '\x60'] = '\x60' :: '\x60' :: '\n' :: s → False := by
        intro s hcc hr
        match rest, hr with
        | [], hr => simp at hr
        | [a], hr => simp at hr
        | a :: b :: r, hr =>
            rw [List.cons_append, List.cons_append, List.cons.injEq, List.cons.injEq] at hr
            exact hx2 r hcc (by rw [hr.1, hr.2.1])
      have k2 : ∀ s, c = '\x60' →
          rest ++ ['\n', '\x60', '\x60', '\x60'] = '\x60' :: '\x60' :: s → False := by
        intro s hcc hr
        match rest, hr with
        | [], hr => simp at hr
        | [a], hr => simp at hr
        | a :: b :: r, hr =>
            rw [List.cons_append, List.cons_append, List.cons.injEq, List.cons.injEq] at hr
            exact hx2 r hcc (by rw [hr.1, hr.2.1])
      rw [r2.eq_3 _ _ k1 k2, r2.eq_3 _ _ hx1 hx2]
      rcases ih with h | h
      · exact Or.inl (congrArg (List.cons c) h)
      · refine Or.inr ?_
        rw [List.cons_append]
        exact congrArg (List.cons c) h
  | case4 => exact Or.inr (by decide)

theorem r1_D (A : List Char) :
    r1 (A ++ ['\n', '\x60', '\x60', '\x60']) = r1 A ++ ['\n', '\x60', '\x60', '\x60'] ∨
    r1 (A ++ ['\n', '\x60', '\x60', '\x60']) = r1 A ++ ['\x60', '\x60', '\x60'] := by
  induction A using r1.induct with
  | case1 rest ih =>
      simp only [List.cons_append]
      show r1 (rest ++ _) = r1 rest ++ _ ∨ r1 (rest ++ _) = r1 rest ++ _
      exact ih
  | case2 rest hx ih =>
      simp only [List.cons_append]
      cases rest with
      | nil => exact Or.inr (by decide)
      | cons a as =>
          have ha : a ≠ '\n' := fun h => hx as (by rw [h])
          have hc : ∀ r, (a :: as) ++ ['\n', '\x60', '\x60', '\x60'] = '\n' :: r → False := by
            intro r hr
            rw [List.cons_append, List.cons.injEq] at hr
            exact ha hr.1
          rw [r1.eq_2 _ hc, r1.eq_2 _ hx]
          exact ih
  | case3 c rest hx1 hx2 ih =>
      simp only [List.cons_append]
      have k1 : ∀ s, c = '\x60' →
          rest ++ ['\n', '\x60', '\x60', '\x60']
            = '\x60' :: '\x60' :: 'j' :: 's' :: 'o' :: 'n' :: '\n' :: s → False := by
        intro s hcc hr
        match rest, hr with
        | [], hr => simp at hr
        | [a], hr => simp at hr
        | [a, b], hr => simp at hr
        | [a, b, d], hr => simp at hr
        | [a, b, d, e], hr => simp at hr
        | [a, b, d, e, f], hr => simp at hr
        | a :: b :: d :: e :: f :: g :: r, hr =>
            simp only [List.cons_append, List.cons.injEq] at hr
            exact hx2 r hcc (by rw [hr.1, hr.2.1, hr.2.2.1, hr.2.2.2.1, hr.2.2.2.2.1, hr.2.2.2.2.2.1])
      have k2 : ∀ s, c = '\x60' →
          rest ++ ['\n', '\x60', '\x60', '\x60']
            = '\x60' :: '\x60' :: 'j' :: 's' :: 'o' :: 'n' :: s → False := by
        intro s hcc hr
        match rest, hr with
        | [], hr => simp at hr
        | [a], hr => simp at hr
        | [a, b], hr => simp at hr
        | [a, b, d], hr => simp at hr
        | [a, b, d, e], hr => simp at hr
        | [a, b, d, e, f], hr => simp at hr
        | a :: b :: d :: e :: f :: g :: r, hr =>
            simp only [List.cons_append, List.cons.injEq] at hr
            exact hx2 r hcc (by rw [hr.1, hr.2.1, hr.2.2.1, hr.2.2.2.1, hr.2.2.2.2.1, hr.2.2.2.2.2.1])
      rw [r1.eq_3 _ _ k1 k2, r1.eq_3 _ _ hx1 hx2]
      rcases ih with h | h
      · refine Or.inl ?_
        rw [List.cons_append]
        exact congrArg (List.cons c) h
      · refine Or.inr ?_
        rw [List.cons_append]
        exact congrArg (List.cons c) h
  | case4 => exact Or.inl (by decide)

theorem jsTrim_nl (X : List Char) : jsTrim (X ++ ['\n']) = jsTrim X := by
  unfold jsTrim trimL
  rw [List.dropWhile_append]
  by_cases h : (X.dropWhile trimWs).isEmpty
  · rw [if_pos h]
    rw [List.isEmpty_iff] at h
    rw [h]
    rfl
  · rw [if_neg h]
    rw [List.reverse_append]
    show ((['\n'] ++ (X.dropWhile trimWs).reverse).dropWhile trimWs).reverse = _
    rw [List.cons_append, List.nil_append, List.dropWhile_cons_of_pos (by decide)]

theorem cleanFenceJson (t : List Char) :
    cleanText ('\x60' :: '\x60' :: '\x60' :: 'j' :: 's' :: 'o' :: 'n' :: '\n' ::
      (t ++ ['\n', '\x60', '\x60', '\x60'])) = cleanText t := by
  unfold cleanText
  rw [show r1 ('\x60' :: '\x60' :: '\x60' :: 'j' :: 's' :: 'o' :: 'n' :: '\n' ::
      (t ++ ['\n', '\x60', '\x60', '\x60'])) = r1 (t ++ ['\n', '\x60', '\x60', '\x60']) from rfl]
  rcases r1_D t with h | h <;> rw [h]
  · rcases r2_D (r1 t) with h2 | h2 <;> rw [h2]
    exact jsTrim_nl _
  · rw [r2_T3]

theorem cleanFencePlain (t : List Char) :
    cleanText ('\x60' :: '\x60' :: '\x60' :: '\n' ::
      (t ++ ['\n', '\x60', '\x60', '\x60'])) = cleanText t := by
  unfold cleanText
  rw [show r1 ('\x60' :: '\x60' :: '\x60' :: '\n' :: (t ++ ['\n', '\x60', '\x60', '\x60']))
      = '\x60' :: '\x60' :: '\x60' :: '\n' :: r1 (t ++ ['\n', '\x60', '\x60', '\x60']) from rfl]
  rcases r1_D t with h | h <;> rw [h]
  · rw [show r2 ('\x60' :: '\x60' :: '\x60' :: '\n' :: (r1 t ++ ['\n', '\x60', '\x60', '\x60']))
        = r2 (r1 t ++ ['\n', '\x60', '\x60', '\x60']) from rfl]
    rcases r2_D (r1 t) with h2 | h2 <;> rw [h2]
    exact jsTrim_nl _
  · rw [show r2 ('\x60' :: '\x60' :: '\x60' :: '\n' :: (r1 t ++ ['\x60', '\x60', '\x60']))
        = r2 (r1 t ++ ['\x60', '\x60', '\x60']) from rfl]
    rw [r2_T3]


/-- Claim C8 (counterexample): fence insensitivity fails for fences
carrying a language tag other than `json` — the replacements remove only
the backtick runs and leave the tag text in place, so a bare flashcard
object wrapped in a `js`-tagged fence raises the unparseable-output
error while the unfenced text parses. -/
theorem c8_counterexample :
    parseJSON (String.mk ('\x60' :: '\x60' :: '\x60' :: 'j' :: 's' :: '\n' ::
        ("\x7b\"front\":\"a\",\"back\":\"b\"\x7d".data ++ ['\n', '\x60', '\x60', '\x60'])))
      = .error errNoJson ∧
    parseJSON "\x7b\"front\":\"a\",\"back\":\"b\"\x7d"
      = .ok (.obj [("front", .str "a"), ("back", .str "b")]) ∧
    (Except.error errNoJson : Except String Json)
      ≠ .ok (.obj [("front", .str "a"), ("back", .str "b")]) := by
  refine ⟨rfl, rfl, ?_⟩
  intro h
  exact Except.noConfusion h

/-- Claim C8 (amended): for every input text, wrapping it in a
triple-backtick fence with the `json` language tag, or with no language
tag at all, yields the identical parse result (value or failure) as the
unfenced text. -/
theorem c8_theorem (t : String) :
    parseJSON ("\x60\x60\x60json\n" ++ t ++ "\n\x60\x60\x60") = parseJSON t ∧
    parseJSON ("\x60\x60\x60\n" ++ t ++ "\n\x60\x60\x60") = parseJSON t := by
  constructor
  · show parseClean (cleanText ("\x60\x60\x60json\n" ++ t ++ "\n\x60\x60\x60").data)
        = parseClean (cleanText t.data)
    rw [show ("\x60\x60\x60json\n" ++ t ++ "\n\x60\x60\x60").data
        = '\x60' :: '\x60' :: '\x60' :: 'j' :: 's' :: 'o' :: 'n' :: '\n' ::
          (t.data ++ ['\n', '\x60', '\x60', '\x60']) from by
      simp only [String.data_append]
      rw [List.append_assoc]
      rfl]
    rw [cleanFenceJson]
  · show parseClean (cleanText ("\x60\x60\x60\n" ++ t ++ "\n\x60\x60\x60").data)
        = parseClean (cleanText t.data)
    rw [show ("\x60\x60\x60\n" ++ t ++ "\n\x60\x60\x60").data
        = '\x60' :: '\x60' :: '\x60' :: '\n' :: (t.data ++ ['\n', '\x60', '\x60', '\x60']) from by
      simp only [String.data_append]
      rw [List.append_assoc]
      rfl]
    rw [cleanFencePlain]
